import Mathlib

/-!
Verification of the finance-tracker forecasting pipeline (`projectedData` module).

The TypeScript source is shallowly embedded below.  JavaScript numbers are
modelled by `JsNum`: either NaN, +Infinity, -Infinity, or an exact rational.
Rationals idealise IEEE doubles (no rounding); none of the proved properties
depends on rounding behaviour.  Signed zero is not modelled: the source guards
every division by a strict positivity test, so a negative-zero divisor never
arises on the paths the theorems talk about.

Dates are kept as strings exactly as in the source; `dateYM` models
`date.split("-").map(Number)` restricted to digit-string components.  On
non-digit components JavaScript's `Number` yields NaN (or a float), poisoning
the month key; every theorem about the aggregator therefore carries the
well-formed-date hypothesis `WFDates`, matching the data model's requirement
that `date` is an ISO calendar day.  Record fields are `Option String`:
`none` models the JavaScript value `undefined`, which arises when the CSV
header lacks the canonical column name.
-/

/-- A JavaScript number: NaN, an infinity, or a finite value (idealised as ℚ). -/
inductive JsNum where
  | nan : JsNum
  | inf : JsNum
  | neginf : JsNum
  | num (q : ℚ) : JsNum
deriving DecidableEq, Repr

namespace JsNum

/-- JavaScript `+` on numbers. -/
def add : JsNum → JsNum → JsNum
  | nan, _ => nan
  | _, nan => nan
  | inf, neginf => nan
  | neginf, inf => nan
  | inf, _ => inf
  | _, inf => inf
  | neginf, _ => neginf
  | _, neginf => neginf
  | num a, num b => num (a + b)

/-- JavaScript unary `-` on numbers. -/
def neg : JsNum → JsNum
  | nan => nan
  | inf => neginf
  | neginf => inf
  | num q => num (-q)

/-- JavaScript `*` on numbers (signed zero not modelled: `inf * 0 = nan`). -/
def mul : JsNum → JsNum → JsNum
  | nan, _ => nan
  | _, nan => nan
  | inf, inf => inf
  | inf, neginf => neginf
  | neginf, inf => neginf
  | neginf, neginf => inf
  | inf, num q => if q = 0 then nan else if q < 0 then neginf else inf
  | num q, inf => if q = 0 then nan else if q < 0 then neginf else inf
  | neginf, num q => if q = 0 then nan else if q < 0 then inf else neginf
  | num q, neginf => if q = 0 then nan else if q < 0 then inf else neginf
  | num a, num b => num (a * b)

/-- JavaScript `/` on numbers (signed zero not modelled; the source only
divides by values that passed a strict positivity guard). -/
def div : JsNum → JsNum → JsNum
  | nan, _ => nan
  | _, nan => nan
  | inf, inf => nan
  | inf, neginf => nan
  | neginf, inf => nan
  | neginf, neginf => nan
  | inf, num q => if q < 0 then neginf else inf
  | neginf, num q => if q < 0 then inf else neginf
  | num _, inf => num 0
  | num _, neginf => num 0
  | num a, num b =>
      if b = 0 then (if a = 0 then nan else if a < 0 then neginf else inf)
      else num (a / b)

/-- JavaScript `x > 0` (false for NaN). -/
def gtZero : JsNum → Bool
  | nan => false
  | inf => true
  | neginf => false
  | num q => decide (0 < q)

/-- JavaScript `Math.max` of two numbers (NaN-absorbing). -/
def jsMax : JsNum → JsNum → JsNum
  | nan, _ => nan
  | _, nan => nan
  | inf, _ => inf
  | _, inf => inf
  | neginf, b => b
  | a, neginf => a
  | num a, num b => num (max a b)

/-- The finite value of a `JsNum`, defaulting to 0 (used only in statements
about values already known to be finite). -/
def toQ : JsNum → ℚ
  | num q => q
  | _ => 0

/-- Predicate: a finite, non-negative JavaScript number. -/
def IsNonnegNum : JsNum → Prop
  | num q => 0 ≤ q
  | _ => False

/-- Predicate: a finite JavaScript number. -/
def IsNum : JsNum → Prop
  | num _ => True
  | _ => False

end JsNum

/-- `reduce((a, b) => a + b, 0)` / the `+=`-accumulation pattern of the source:
left fold of JavaScript addition starting from `0`. -/
def jsSum (l : List JsNum) : JsNum := l.foldl JsNum.add (JsNum.num 0)

/-- `Math.max(...l)`: fold of `Math.max` starting from `-Infinity`. -/
def jsMaxList (l : List JsNum) : JsNum := l.foldl JsNum.jsMax JsNum.neginf

/-- ASCII decimal digit test. -/
def isDig (c : Char) : Bool := 48 ≤ c.toNat && c.toNat ≤ 57

/-- Value of a list of decimal digit characters (most significant first). -/
def digsVal (l : List Char) : Nat := l.foldl (fun a c => 10 * a + (c.toNat - 48)) 0

/-- Whitespace recognised by `parseFloat` and `trim` (ASCII subset). -/
def isWs (c : Char) : Bool := c = ' ' || c = '\t' || c = '\n' || c = '\r'

/-- Fuelled helper for decimal rendering (structural recursion keeps the
definition executable by the kernel; the fuel is always sufficient). -/
def toDecAux (fuel n : Nat) : List Char :=
  match fuel with
  | 0 => []
  | fuel + 1 =>
    if n < 10 then [Nat.digitChar n]
    else toDecAux fuel (n / 10) ++ [Nat.digitChar (n % 10)]

/-- Decimal rendering of a natural number, as JavaScript number-to-string
produces for integral values (`${year}`, `month.toString()`). -/
def toDecChars (n : Nat) : List Char := toDecAux (n + 1) n

/-- JavaScript `String.prototype.split` with a one-character separator
(`split(",")`, `split("\n")`, `split("-")`); on the empty string it returns
one empty piece. -/
def splitOnChar (sep : Char) : List Char → List (List Char)
  | [] => [[]]
  | c :: rest =>
    if c = sep then [] :: splitOnChar sep rest
    else
      match splitOnChar sep rest with
      | g :: gs => (c :: g) :: gs
      | [] => [[c]]

/-- `split` lifted to `String` values. -/
def jsSplit (sep : Char) (s : String) : List String :=
  (splitOnChar sep s.data).map String.mk

/-- `String.prototype.trim`, restricted to the ASCII whitespace occurring in
the inputs modelled here. -/
def jsTrim (l : List Char) : List Char :=
  ((l.dropWhile isWs).reverse.dropWhile isWs).reverse

/-- `padStart(2, "0")` on a character list. -/
def pad2c (l : List Char) : List Char :=
  if l.length < 2 then List.replicate (2 - l.length) '0' ++ l else l

/-- The month key template of the source:
`` `${year}-${month.toString().padStart(2, "0")}` ``. -/
def monthKeyOf (y m : Nat) : String :=
  String.mk (toDecChars y ++ '-' :: pad2c (toDecChars m))

/-- The decimal grammar of `parseFloat` after the optional sign: the longest
prefix shaped `digits [. digits] [e|E [sign] digits]`, returned as
(integer-part value, fraction value, fraction length, exponent); `none` when
no digit occurs before the exponent marker. -/
def mantExp (l : List Char) : Option (Nat × Nat × Nat × Int) :=
  let ip := l.takeWhile isDig
  let r1 := l.dropWhile isDig
  let fr := match r1 with
    | '.' :: rest => (rest.takeWhile isDig, rest.dropWhile isDig)
    | _ => ([], r1)
  if ip = [] ∧ fr.1 = [] then none
  else
    let e : Int := match fr.2 with
      | c :: rest =>
        if c = 'e' ∨ c = 'E' then
          match rest with
          | '+' :: ds =>
            if ds.takeWhile isDig = [] then 0 else (digsVal (ds.takeWhile isDig) : Int)
          | '-' :: ds =>
            if ds.takeWhile isDig = [] then 0 else -(digsVal (ds.takeWhile isDig) : Int)
          | ds =>
            if ds.takeWhile isDig = [] then 0 else (digsVal (ds.takeWhile isDig) : Int)
        else 0
      | [] => 0
    some (digsVal ip, digsVal fr.1, fr.1.length, e)

/-- `parseFloat` after the optional sign: `Infinity`, or the value of the
parsed decimal prefix; NaN when no digits occur. -/
def parseDecMant (l : List Char) : JsNum :=
  if l.take 8 = "Infinity".data then JsNum.inf
  else
    match mantExp l with
    | none => JsNum.nan
    | some (ip, fv, fl, e) =>
      JsNum.num (((ip : ℚ) + (fv : ℚ) / (10 : ℚ) ^ fl) * (10 : ℚ) ^ e)

/-- JavaScript `parseFloat` on a string. -/
def jsParseFloat (s : String) : JsNum :=
  match s.data.dropWhile isWs with
  | '+' :: rest => parseDecMant rest
  | '-' :: rest => JsNum.neg (parseDecMant rest)
  | l => parseDecMant l

/-- A parsed transaction record (`CSVTransaction` in the source).  Fields are
`Option String`: `none` models the JavaScript value `undefined`, which a field
takes when the header line lacks the corresponding column name. -/
structure CSVTransaction where
  id : Option String
  date : Option String
  type : Option String
  category : Option String
  description : Option String
  amount : JsNum
  currency : Option String
  merchantId : Option String
  merchantName : Option String
  mcc : Option String
  isRecurring : Option String
  essentiality : Option String
  labelRecurring : Option String
  labelEssential : Option String
deriving DecidableEq, Repr

/-- The value `transaction[k]` after the header-to-value `forEach` loop: the
value paired with the last occurrence of `k` in the header (later assignments
overwrite earlier ones), `none` (undefined) when `k` is not a header. -/
def lookupLast (hs vs : List String) (k : String) : Option String :=
  ((hs.zip vs).reverse).lookup k

/-- The pattern `transaction.k !== "" ? transaction.k : dflt` of the source:
an empty field is defaulted, an absent (undefined) field is kept as undefined
because `undefined !== ""` holds in JavaScript. -/
def fieldOr (hs vs : List String) (k dflt : String) : Option String :=
  match lookupLast hs vs k with
  | none => none
  | some v => some (if v = "" then dflt else v)

/-- Construction of one typed transaction from a header list and a value list
(the loop body of `parseCSV`).  `parseFloat(undefined)` is NaN. -/
def typedRow (hs vs : List String) : CSVTransaction where
  id := fieldOr hs vs "id" ""
  date := fieldOr hs vs "date" ""
  type := fieldOr hs vs "type" "expense"
  category := fieldOr hs vs "category" ""
  description := fieldOr hs vs "description" ""
  amount := match fieldOr hs vs "amount" "0" with
    | none => JsNum.nan
    | some v => jsParseFloat v
  currency := fieldOr hs vs "currency" ""
  merchantId := fieldOr hs vs "merchantId" ""
  merchantName := fieldOr hs vs "merchantName" ""
  mcc := fieldOr hs vs "mcc" ""
  isRecurring := fieldOr hs vs "isRecurring" ""
  essentiality := fieldOr hs vs "essentiality" ""
  labelRecurring := fieldOr hs vs "labelRecurring" ""
  labelEssential := fieldOr hs vs "labelEssential" ""

/-- `parseCSV` after the initial `trim().split("\n")`: the first line is the
header; every later line whose comma-split field count differs from the
header's is skipped, the rest become typed records in input order. -/
def parseCSVLines (lines : List String) : List CSVTransaction :=
  match lines with
  | [] => []
  | header :: rest =>
    let hs := jsSplit ',' header
    (rest.filter (fun ln => (jsSplit ',' ln).length = hs.length)).map
      (fun ln => typedRow hs (jsSplit ',' ln))

/-- `parseCSV` of the source. -/
def parseCSV (csvText : String) : List CSVTransaction :=
  parseCSVLines ((splitOnChar '\n' (jsTrim csvText.data)).map String.mk)

/-- One month's aggregate (`MonthlyData` in the source).  `year` and `month`
are the values `Number` produced from the first two date components; the
well-formed-date hypothesis of the theorems makes them natural numbers. -/
structure MonthlyData where
  year : Nat
  month : Nat
  monthKey : String
  totalIncome : JsNum
  totalExpenses : JsNum
  transactionCount : Nat
deriving DecidableEq, Repr

/-- All-zero aggregate, used as an unreachable default. -/
def mdZero : MonthlyData := ⟨0, 0, "", JsNum.num 0, JsNum.num 0, 0⟩

/-- Digit-string parsing: the restriction of JavaScript `Number` to the
digit-formed components the well-formed-date hypothesis guarantees
(`Number` on other strings yields NaN, a float, or 0 for the empty string). -/
def parseNatDigs (s : String) : Option Nat :=
  if s.data ≠ [] ∧ s.data.all isDig then some (digsVal s.data) else none

/-- `const [year, month] = txn.date.split("-").map(Number)`, restricted to
digit components; `none` covers every case the theorems exclude (an undefined
date — on which JavaScript would throw — or non-digit components). -/
def dateYM (d : Option String) : Option (Nat × Nat) :=
  match d with
  | none => none
  | some ds =>
    match jsSplit '-' ds with
    | y :: m :: _ =>
      match parseNatDigs y, parseNatDigs m with
      | some a, some b => some (a, b)
      | _, _ => none
    | _ => none

/-- The (year, month) of a transaction, with an unreachable default. -/
def ymOfTxn (t : CSVTransaction) : Nat × Nat := (dateYM t.date).getD (0, 0)

/-- Adds a transaction into the aggregate sharing its month key
(the body of the aggregation loop after the get-or-create step). -/
def updateEntry (d : MonthlyData) (t : CSVTransaction) : MonthlyData :=
  { d with
    totalIncome := if t.type = some "income" then d.totalIncome.add t.amount else d.totalIncome
    totalExpenses := if t.type = some "income" then d.totalExpenses else d.totalExpenses.add t.amount
    transactionCount := d.transactionCount + 1 }

/-- One iteration of the aggregation loop: get-or-create the entry keyed by
the transaction's month key (a JavaScript `Map` preserves insertion order),
then accumulate.  Modelled as an insertion-ordered association list. -/
def addTxn (acc : List MonthlyData) (t : CSVTransaction) : List MonthlyData :=
  let ym := ymOfTxn t
  let key := monthKeyOf ym.1 ym.2
  if acc.any (fun d => d.monthKey == key) then
    acc.map (fun d => if d.monthKey == key then updateEntry d t else d)
  else
    acc ++ [updateEntry ⟨ym.1, ym.2, key, JsNum.num 0, JsNum.num 0, 0⟩ t]

/-- The total preorder induced by the comparator
`(a, b) => a.year !== b.year ? a.year - b.year : a.month - b.month`. -/
def leYM (a b : MonthlyData) : Prop :=
  a.year < b.year ∨ (a.year = b.year ∧ a.month ≤ b.month)

instance : DecidableRel leYM := fun a b => by
  unfold leYM
  exact inferInstance

instance : IsTotal MonthlyData leYM := ⟨by intro a b; unfold leYM; omega⟩

instance : IsTrans MonthlyData leYM := ⟨by intro a b c; unfold leYM; omega⟩

/-- `aggregateByMonth` of the source: group into the insertion-ordered map,
then sort the values chronologically.  JavaScript `Array.prototype.sort` with
a consistent comparator is a stable sort; any stable sort produces the same
list, and insertion sort is used here because the kernel can evaluate it. -/
def aggregateByMonth (transactions : List CSVTransaction) : List MonthlyData :=
  (transactions.foldl addTxn []).insertionSort leYM

/-- `filterByCurrency` of the source: exact string match (an undefined
currency field never matches). -/
def filterByCurrency (transactions : List CSVTransaction) (currency : String) :
    List CSVTransaction :=
  transactions.filter (fun txn => txn.currency == some currency)

/-- Result bundle of `createFeatures`. -/
structure FeatOut where
  features : List (List JsNum)
  incomeLabels : List JsNum
  expenseLabels : List JsNum
  maxIncome : JsNum
  maxExpense : JsNum
  minYear : Nat
  maxYear : Nat
deriving DecidableEq, Repr

/-- `Math.min(...years)` for a non-empty list (the empty case is unreachable:
`createFeatures` throws first). -/
def natMinList (l : List Nat) : Nat :=
  match l with
  | [] => 0
  | h :: t => t.foldl min h

/-- `Math.max(...years)` for a non-empty list. -/
def natMaxList (l : List Nat) : Nat :=
  match l with
  | [] => 0
  | h :: t => t.foldl max h

/-- `const yearRange = maxYear - minYear > 0 ? maxYear - minYear : 1`. -/
def yearRangeQ (minY maxY : Nat) : ℚ :=
  if 0 < (maxY : ℚ) - (minY : ℚ) then (maxY : ℚ) - (minY : ℚ) else 1

/-- Feature 1: `data.month / 12`. -/
def normMonth (m : Nat) : ℚ := (m : ℚ) / 12

/-- Feature 2: `(data.year - minYear) / yearRange`. -/
def normYear (y minY maxY : Nat) : ℚ := ((y : ℚ) - (minY : ℚ)) / yearRangeQ minY maxY

/-- The guarded normalisation `maxv > 0 ? x / maxv : 0`. -/
def normBy (x maxv : JsNum) : JsNum :=
  if maxv.gtZero then x.div maxv else JsNum.num 0

/-- Trailing moving average at index `i`: sum of the `min i 3` immediately
preceding values, divided by that count; `0` when `i = 0`.  (The source
computes `lookbackIncome` and `lookbackExpense` identically.) -/
def windowAvg (vals : List JsNum) (i : Nat) : JsNum :=
  let lb := min i 3
  if 0 < lb then JsNum.div (jsSum ((vals.drop (i - lb)).take lb)) (JsNum.num lb)
  else JsNum.num 0

/-- The 4-feature vector for historical month index `i`. -/
def featureRow (md : List MonthlyData) (maxI maxE : JsNum) (minY maxY : Nat) (i : Nat) :
    List JsNum :=
  let d := md.getD i mdZero
  [JsNum.num (normMonth d.month),
   JsNum.num (normYear d.year minY maxY),
   normBy (windowAvg (md.map (fun x => x.totalIncome)) i) maxI,
   normBy (windowAvg (md.map (fun x => x.totalExpenses)) i) maxE]

/-- `createFeatures` of the source: throws only on an empty aggregate list. -/
def createFeatures (monthlyData : List MonthlyData) : Except String FeatOut :=
  if monthlyData.length = 0 then
    .error "No monthly data available for feature creation"
  else
    let years := monthlyData.map (fun d => d.year)
    let minY := natMinList years
    let maxY := natMaxList years
    let maxI := jsMaxList (monthlyData.map (fun d => d.totalIncome))
    let maxE := jsMaxList (monthlyData.map (fun d => d.totalExpenses))
    .ok
      { features := (List.range monthlyData.length).map (featureRow monthlyData maxI maxE minY maxY)
        incomeLabels := monthlyData.map (fun d => normBy d.totalIncome maxI)
        expenseLabels := monthlyData.map (fun d => normBy d.totalExpenses maxE)
        maxIncome := maxI
        maxExpense := maxE
        minYear := minY
        maxYear := maxY }

/-- One projected month (`ProjectedMonthlyData` in the source). -/
structure ProjectedMonthlyData where
  monthKey : String
  projectedIncome : JsNum
  projectedExpenses : JsNum
deriving DecidableEq, Repr

/-- Persisted bundle (`ProjectionResult` in the source). -/
structure ProjectionResult where
  projections : List ProjectedMonthlyData
  modelAccuracy : Option JsNum
  trainingDate : String
  historicalMonths : Nat
deriving DecidableEq, Repr

/-- Calendar successor of a (year, month) pair: the spec's month arithmetic,
wrapping from 12 to 1 and incrementing the year. -/
def stepMonth (ym : Nat × Nat) : Nat × Nat :=
  if ym.2 + 1 > 12 then (ym.1 + 1, 1) else (ym.1, ym.2 + 1)

/-- Strict chronological order on (year, month) pairs. -/
def ymLt (a b : Nat × Nat) : Prop := a.1 < b.1 ∨ (a.1 = b.1 ∧ a.2 < b.2)

/-- The projection loop of `generateProjections`.  The two trained models are
abstracted as pure functions from the 4 features to a prediction (the tensor
plumbing around `model.predict` computes exactly such an application). -/
def projLoop (predI predE : JsNum → JsNum → JsNum → JsNum → JsNum)
    (maxI maxE : JsNum) (minY maxY : Nat) :
    Nat → Nat × Nat → List JsNum → List JsNum → List ProjectedMonthlyData
  | 0, _, _, _ => []
  | n + 1, ym, recI, recE =>
    let cm := ym.2 + 1
    let ym2 := if cm > 12 then (ym.1 + 1, 1) else (ym.1, cm)
    let key := monthKeyOf ym2.1 ym2.2
    let f1 := JsNum.num (normMonth ym2.2)
    let f2 := JsNum.num (normYear ym2.1 minY maxY)
    let avgI := if 0 < recI.length then JsNum.div (jsSum recI) (JsNum.num recI.length)
      else JsNum.num 0
    let avgE := if 0 < recE.length then JsNum.div (jsSum recE) (JsNum.num recE.length)
      else JsNum.num 0
    let f3 := normBy avgI maxI
    let f4 := normBy avgE maxE
    let pIn := (predI f1 f2 f3 f4).mul maxI
    let pEx := (predE f1 f2 f3 f4).mul maxE
    let recI2 := let r := recI ++ [pIn]; if r.length > 3 then r.drop 1 else r
    let recE2 := let r := recE ++ [pEx]; if r.length > 3 then r.drop 1 else r
    ⟨key, pIn, pEx⟩ :: projLoop predI predE maxI maxE minY maxY n ym2 recI2 recE2

/-- `generateProjections` of the source.  `md[md.length - 1]` on an empty list
is undefined (the subsequent field access would throw); the theorems assume a
non-empty history, making the default unreachable.  `slice(-3)` is
`drop (length - 3)`. -/
def generateProjections (predI predE : JsNum → JsNum → JsNum → JsNum → JsNum)
    (monthlyData : List MonthlyData) (maxI maxE : JsNum) (minY maxY : Nat)
    (numMonths : Nat) : List ProjectedMonthlyData :=
  let lastM := monthlyData.getLast?.getD mdZero
  projLoop predI predE maxI maxE minY maxY numMonths (lastM.year, lastM.month)
    ((monthlyData.drop (monthlyData.length - 3)).map (fun d => d.totalIncome))
    ((monthlyData.drop (monthlyData.length - 3)).map (fun d => d.totalExpenses))

/-- The fail-fast prefix of `generateAndSaveProjections`: currency filter,
empty-currency check, aggregation, and the fewer-than-3-months check, all
before any feature or model work. -/
def pipelinePrepare (transactions : List CSVTransaction) (currency : String) :
    Except String (List MonthlyData) :=
  if (filterByCurrency transactions currency).length = 0 then
    .error ("No transactions found for currency: " ++ currency)
  else if (aggregateByMonth (filterByCurrency transactions currency)).length < 3 then
    .error "Need at least 3 months of data for meaningful predictions"
  else
    .ok (aggregateByMonth (filterByCurrency transactions currency))

/-- A JSON value (the serialized payload at the level of its parse tree; the
text form and the tree determine each other for valid JSON). -/
inductive JVal where
  | jnull : JVal
  | jbool (b : Bool) : JVal
  | jnum (q : ℚ) : JVal
  | jstr (s : String) : JVal
  | jarr (xs : List JVal) : JVal
  | jobj (fields : List (String × JVal)) : JVal

/-- `JSON.stringify` of a number: finite values serialize exactly, NaN and the
infinities serialize as `null`. -/
def encodeNum : JsNum → JVal
  | JsNum.num q => JVal.jnum q
  | _ => JVal.jnull

/-- Serialized form of one projected month. -/
def encodeProj (p : ProjectedMonthlyData) : JVal :=
  JVal.jobj [("monthKey", JVal.jstr p.monthKey),
             ("projectedIncome", encodeNum p.projectedIncome),
             ("projectedExpenses", encodeNum p.projectedExpenses)]

/-- Serialized form of the projection bundle; an absent optional field is
omitted, as `JSON.stringify` omits undefined properties. -/
def encodeResult (r : ProjectionResult) : JVal :=
  JVal.jobj
    ([("projections", JVal.jarr (r.projections.map encodeProj))] ++
      (match r.modelAccuracy with
        | none => []
        | some a => [("modelAccuracy", encodeNum a)]) ++
      [("trainingDate", JVal.jstr r.trainingDate),
       ("historicalMonths", JVal.jnum (r.historicalMonths : ℚ))])

/-- Reading a number field back. -/
def decodeNum : JVal → Option JsNum
  | JVal.jnum q => some (JsNum.num q)
  | _ => none

/-- Reading a natural-number field back. -/
def decodeNatJ : JVal → Option Nat
  | JVal.jnum q => if q.den = 1 ∧ 0 ≤ q.num then some q.num.toNat else none
  | _ => none

/-- Reading one projected month back. -/
def decodeProj : JVal → Option ProjectedMonthlyData
  | JVal.jobj fs =>
    match fs.lookup "monthKey", (fs.lookup "projectedIncome").bind decodeNum,
        (fs.lookup "projectedExpenses").bind decodeNum with
    | some (JVal.jstr k), some a, some b => some ⟨k, a, b⟩
    | _, _, _ => none
  | _ => none

/-- Reading a list of projected months back. -/
def decodeProjList : List JVal → Option (List ProjectedMonthlyData)
  | [] => some []
  | j :: js =>
    match decodeProj j, decodeProjList js with
    | some p, some ps => some (p :: ps)
    | _, _ => none

/-- Reading the projection bundle back (the typed reading of the parsed JSON;
`loadProjectionsFromStorage` casts the parse result to this shape). -/
def decodeResult : JVal → Option ProjectionResult
  | JVal.jobj fs =>
    match fs.lookup "projections", fs.lookup "trainingDate",
        (fs.lookup "historicalMonths").bind decodeNatJ with
    | some (JVal.jarr ps), some (JVal.jstr td), some hm =>
      match decodeProjList ps with
      | some projs =>
        match fs.lookup "modelAccuracy" with
        | none => some ⟨projs, none, td, hm⟩
        | some v =>
          match decodeNum v with
          | some a => some ⟨projs, some a, td, hm⟩
          | none => none
      | none => none
    | _, _, _ => none
  | _ => none

/-- What the fixed localStorage slot holds: a payload that parses as JSON, or
bytes on which `JSON.parse` throws. -/
inductive StoredPayload where
  | valid (j : JVal) : StoredPayload
  | corrupt : StoredPayload

/-- The browser key-value store, restricted to the single fixed key the module
uses; `writeFails` models a store whose write operation throws (quota). -/
structure KVStore where
  slot : Option StoredPayload
  writeFails : Bool

/-- `localStorage.setItem`: throws (returns an error) when the store's write
operation fails, otherwise overwrites the slot. -/
def setItem (st : KVStore) (j : JVal) : Except String KVStore :=
  if st.writeFails then .error "QuotaExceededError"
  else .ok { st with slot := some (StoredPayload.valid j) }

/-- `saveProjectionsToStorage` of the source: `setItem` inside `try`/`catch`;
a thrown write error is logged and not rethrown, so the function always
returns normally. -/
def saveProjectionsToStorage (result : ProjectionResult) (st : KVStore) :
    Except String KVStore :=
  match setItem st (encodeResult result) with
  | .ok st2 => .ok st2
  | .error _ => .ok st

/-- `loadProjectionsFromStorage` of the source: `null` for an empty slot; a
`JSON.parse` failure is caught and turned into `null`; otherwise the parsed
value (the caller casts it). -/
def loadProjectionsFromStorage (st : KVStore) : Option JVal :=
  match st.slot with
  | none => none
  | some StoredPayload.corrupt => none
  | some (StoredPayload.valid j) => some j

/-- Per-calendar-year totals (`HistoricalYearlyData` in the source). -/
structure HistoricalYearlyData where
  year : String
  income : JsNum
  expenses : JsNum
deriving DecidableEq, Repr

/-- `txn.date.split("-")[0]`. -/
def yearOfDate (d : String) : String := (jsSplit '-' d).headD ""

/-- Yearly accumulation step (the loop body over the insertion-ordered map). -/
def addYearTxn (acc : List HistoricalYearlyData) (t : CSVTransaction) :
    List HistoricalYearlyData :=
  let y := yearOfDate (t.date.getD "")
  let upd := fun (e : HistoricalYearlyData) =>
    if t.type = some "income" then { e with income := e.income.add t.amount }
    else { e with expenses := e.expenses.add t.amount }
  if acc.any (fun e => e.year == y) then
    acc.map (fun e => if e.year == y then upd e else e)
  else
    acc ++ [upd ⟨y, JsNum.num 0, JsNum.num 0⟩]

/-- `loadHistoricalYearlyData` of the source.  The whole body sits in a
`try`/`catch` returning `[]`: a failed fetch, a non-ok response (both modelled
by the `Except.error` argument) and the `TypeError` thrown by `.split` on an
undefined date all yield `[]`.  `localeCompare` is modelled as code-point
comparison. -/
def loadHistoricalYearlyData (fetched : Except String String) (currency : String) :
    List HistoricalYearlyData :=
  match fetched with
  | .error _ => []
  | .ok text =>
    let filtered := filterByCurrency (parseCSV text) currency
    if filtered.any (fun t => t.date.isNone) then []
    else (filtered.foldl addYearTxn []).insertionSort (fun a b => a.year ≤ b.year)

/-- Well-formed dates: every transaction has a defined date whose first two
`-`-separated components are digit strings (the data model's ISO calendar
day), so that `Number` yields natural year and month values. -/
def WFDates (ts : List CSVTransaction) : Prop := ∀ t ∈ ts, (dateYM t.date).isSome

/-- The (year, month) stored in an aggregate. -/
def mdYM (d : MonthlyData) : Nat × Nat := (d.year, d.month)

/-- The transactions of the given (year, month). -/
def monthTxns (ts : List CSVTransaction) (y m : Nat) : List CSVTransaction :=
  ts.filter (fun t => ymOfTxn t = (y, m))

/-- The JavaScript sum of the amounts of a month's income transactions. -/
def incomeOf (ts : List CSVTransaction) (y m : Nat) : JsNum :=
  jsSum (((monthTxns ts y m).filter (fun t => t.type == some "income")).map
    (fun t => t.amount))

/-- The JavaScript sum of the amounts of a month's non-income transactions. -/
def expenseOf (ts : List CSVTransaction) (y m : Nat) : JsNum :=
  jsSum (((monthTxns ts y m).filter (fun t => !(t.type == some "income"))).map
    (fun t => t.amount))

/-- Invariant of the aggregation loop after processing the transactions `ts`:
keys are derived from the stored (year, month); keys are pairwise distinct;
an aggregate for (y, m) exists exactly when some processed transaction has
that month; and every aggregate's totals and count reconstruct exactly from
the processed transactions of its month. -/
def AggInv (ts : List CSVTransaction) (acc : List MonthlyData) : Prop :=
  (∀ d ∈ acc, d.monthKey = monthKeyOf d.year d.month) ∧
  ((acc.map (fun d => d.monthKey)).Nodup) ∧
  (∀ y m, (∃ d ∈ acc, d.year = y ∧ d.month = m) ↔ ∃ t ∈ ts, ymOfTxn t = (y, m)) ∧
  (∀ d ∈ acc, d.totalIncome = incomeOf ts d.year d.month ∧
    d.totalExpenses = expenseOf ts d.year d.month ∧
    d.transactionCount = (monthTxns ts d.year d.month).length)

/-- A projection bundle whose numeric content survives JSON serialization:
all amounts finite (NaN and the infinities serialize as `null`) and the
optional accuracy either absent or finite. -/
def SerializableResult (r : ProjectionResult) : Prop :=
  (∀ p ∈ r.projections,
    (∃ q, p.projectedIncome = JsNum.num q) ∧ (∃ q, p.projectedExpenses = JsNum.num q)) ∧
  (r.modelAccuracy = none ∨ ∃ q, r.modelAccuracy = some (JsNum.num q))

/-! ### Concrete inputs for the closed instance theorems -/

/-- A CSV text whose single data row has the unparsable amount `abc`. -/
def csvBadAmount : String :=
  "id,date,type,category,description,amount,currency,merchantId,merchantName,mcc,isRecurring,essentiality,labelRecurring,labelEssential\n1,2024-01-15,income,cat,desc,abc,GBP,m1,mn,5411,no,high,0,1"

/-- A single-month aggregate history. -/
def mdOne : List MonthlyData := [⟨2024, 1, "2024-01", JsNum.num 5, JsNum.num 3, 2⟩]

/-- A three-month aggregate history. -/
def mdThree : List MonthlyData :=
  [⟨2024, 1, "2024-01", JsNum.num 0, JsNum.num 0, 1⟩,
   ⟨2024, 2, "2024-02", JsNum.num 0, JsNum.num 0, 1⟩,
   ⟨2024, 3, "2024-03", JsNum.num 0, JsNum.num 0, 1⟩]

/-- A single-month history ending in November. -/
def mdNov : List MonthlyData := [⟨2024, 11, "2024-11", JsNum.num 0, JsNum.num 0, 0⟩]

/-- A constant model. -/
def zeroModel : JsNum → JsNum → JsNum → JsNum → JsNum := fun _ _ _ _ => JsNum.num 0

/-- An empty projection bundle. -/
def emptyResult : ProjectionResult := ⟨[], none, "2024-01-01T00:00:00.000Z", 0⟩

/-- A store whose write operation fails. -/
def failStore : KVStore := ⟨none, true⟩

/-- A store holding an unparsable payload. -/
def corruptStore : KVStore := ⟨some StoredPayload.corrupt, false⟩

/-- An empty, healthy store. -/
def okStore : KVStore := ⟨none, false⟩

/-- A March expense transaction. -/
def txnMar : CSVTransaction :=
  ⟨some "1", some "2024-03-02", some "groceries", none, none, JsNum.num 0,
   some "GBP", none, none, none, none, none, none, none⟩

/-- A February expense transaction. -/
def txnFeb : CSVTransaction :=
  ⟨some "3", some "2024-02-14", some "rent", none, none, JsNum.num 0,
   some "GBP", none, none, none, none, none, none, none⟩

/-- The aggregate `aggregateByMonth [txnMar]` produces. -/
def mdMarEntry : MonthlyData :=
  ⟨2024, 3, monthKeyOf 2024 3, JsNum.num 0, JsNum.num 0, 1⟩

/-- A January income transaction. -/
def txnJan : CSVTransaction :=
  ⟨some "2", some "2024-01-09", some "income", none, none, JsNum.num 0,
   some "GBP", none, none, none, none, none, none, none⟩

/-! ### Helper lemmas -/

theorem js_zero_add (a : JsNum) : (JsNum.num 0).add a = a := by
  cases a <;> simp [JsNum.add]

theorem jsParseFloat_zero : jsParseFloat "0" = JsNum.num 0 := by
  show JsNum.num
      ((((0 : Nat) : ℚ) + ((0 : Nat) : ℚ) / (10 : ℚ) ^ (0 : Nat)) * (10 : ℚ) ^ ((0 : Int)))
    = JsNum.num 0
  norm_num


/-- C9: the secondary entry point never propagates a load error: any failed
fetch (network error or non-ok response) yields the empty list. -/
theorem spec_c9 (e : String) (currency : String) :
    loadHistoricalYearlyData (Except.error e) currency = [] := rfl

/-- C4 counterexample: at a store whose write operation fails, save returns
normally (`Except.ok`), so the write error is not propagated to the caller. -/
theorem spec_c4_cex :
    failStore.writeFails = true ∧
      saveProjectionsToStorage emptyResult failStore = Except.ok failStore :=
  ⟨rfl, rfl⟩

/-- C4 (amended): `saveProjectionsToStorage` always returns normally — a
failing store write is swallowed (only logged), leaving the store unchanged —
and a load whose stored payload fails to parse returns the absence value. -/
theorem spec_c4 :
    (∀ (r : ProjectionResult) (st : KVStore),
      ∃ st2, saveProjectionsToStorage r st = Except.ok st2 ∧
        (st.writeFails = true → st2 = st)) ∧
    (∀ st : KVStore, st.slot = some StoredPayload.corrupt →
      loadProjectionsFromStorage st = none) := by
  constructor
  · intro r st
    unfold saveProjectionsToStorage setItem
    by_cases h : st.writeFails
    · exact ⟨st, by simp [h]⟩
    · exact ⟨{ st with slot := some (StoredPayload.valid (encodeResult r)) }, by simp [h]⟩
  · intro st h
    unfold loadProjectionsFromStorage
    rw [h]

/-- C4 witness: the amended statement at a failing store and a corrupt store. -/
theorem spec_c4_witness :
    (∃ st2, saveProjectionsToStorage emptyResult failStore = Except.ok st2 ∧
      (failStore.writeFails = true → st2 = failStore)) ∧
    loadProjectionsFromStorage corruptStore = none :=
  ⟨spec_c4.1 emptyResult failStore, spec_c4.2 corruptStore rfl⟩

set_option maxRecDepth 20000 in
/-- C3 counterexample: a data row whose amount field is the unparsable
non-empty string `abc` parses to amount NaN, not 0. -/
theorem spec_c3_cex :
    (parseCSV csvBadAmount).map (fun t => t.amount) = [JsNum.nan] ∧
      JsNum.nan ≠ JsNum.num 0 := by
  constructor
  · decide
  · decide

/-- C3 (amended): for a row whose field count matches the header, an *empty*
amount field defaults to 0; a *non-empty* amount field is parsed with
JavaScript `parseFloat` semantics, so an unparsable one yields NaN (never a
raised error — the parser is total, and an absent amount column yields NaN
via `parseFloat(undefined)`). -/
theorem spec_c3 (hs vs : List String) :
    (lookupLast hs vs "amount" = some "" → (typedRow hs vs).amount = JsNum.num 0) ∧
    (∀ v, lookupLast hs vs "amount" = some v → v ≠ "" →
      (typedRow hs vs).amount = jsParseFloat v) ∧
    (lookupLast hs vs "amount" = none → (typedRow hs vs).amount = JsNum.nan) := by
  refine ⟨?_, ?_, ?_⟩
  · intro h
    simp [typedRow, fieldOr, h, jsParseFloat_zero]
  · intro v h hne
    simp [typedRow, fieldOr, h, hne]
  · intro h
    simp [typedRow, fieldOr, h]

/-- C3 witness: the amended statement at concrete rows. -/
theorem spec_c3_witness :
    (typedRow ["amount"] [""]).amount = JsNum.num 0 ∧
      (typedRow ["amount"] ["abc"]).amount = jsParseFloat "abc" :=
  ⟨(spec_c3 ["amount"] [""]).1 rfl, (spec_c3 ["amount"] ["abc"]).2.1 "abc" rfl (by decide)⟩

/-- C2 counterexample: `createFeatures` succeeds on a single aggregated month
(the fewer-than-3 check does not live in the Feature Builder). -/
theorem spec_c2_cex : (createFeatures mdOne).isOk = true := rfl

/-- C2 (amended): `createFeatures` itself fails only on an empty aggregate
list and succeeds on any non-empty one; the fewer-than-3-months
insufficient-data check is enforced by the pipeline entry point before
feature creation: it fails whenever fewer than 3 aggregated months exist,
and succeeds (handing exactly the aggregated months on) whenever at least 3
exist — at least 3 aggregated months force a non-empty filtered list, so the
earlier empty-currency guard cannot fire. -/
theorem spec_c2 :
    (∀ md : List MonthlyData, (∃ e, createFeatures md = Except.error e) ↔ md = []) ∧
    (∀ ts c, (aggregateByMonth (filterByCurrency ts c)).length < 3 →
      ∃ e, pipelinePrepare ts c = Except.error e) ∧
    (∀ ts c, 3 ≤ (aggregateByMonth (filterByCurrency ts c)).length →
      pipelinePrepare ts c = Except.ok (aggregateByMonth (filterByCurrency ts c))) ∧
    (∀ ts c mdOut, pipelinePrepare ts c = Except.ok mdOut → 3 ≤ mdOut.length) := by
  refine ⟨?_, ?_, ?_, ?_⟩
  · intro md
    constructor
    · rintro ⟨e, he⟩
      by_contra hne
      have hlen : ¬ md.length = 0 := by simpa [List.length_eq_zero] using hne
      simp [createFeatures, hlen] at he
    · rintro rfl
      exact ⟨_, rfl⟩
  · intro ts c h
    unfold pipelinePrepare
    by_cases h0 : (filterByCurrency ts c).length = 0
    · rw [if_pos h0]
      exact ⟨_, rfl⟩
    · rw [if_neg h0, if_pos h]
      exact ⟨_, rfl⟩
  · intro ts c h3
    have h0 : ¬ (filterByCurrency ts c).length = 0 := by
      intro h0
      have hnil : filterByCurrency ts c = [] := List.length_eq_zero.mp h0
      rw [hnil] at h3
      have : aggregateByMonth [] = [] := rfl
      rw [this] at h3
      simp at h3
    unfold pipelinePrepare
    rw [if_neg h0, if_neg (by omega)]
  · intro ts c mdOut h
    unfold pipelinePrepare at h
    split at h
    · exact absurd h (by simp)
    · split at h
      · exact absurd h (by simp)
      · rename_i h0 h3
        cases h
        omega

/-- C2 witness: the amended statement at an empty history, an empty
transaction list, and a three-month single-currency input on which the
pipeline check succeeds. -/
theorem spec_c2_witness :
    (∃ e, createFeatures ([] : List MonthlyData) = Except.error e) ∧
    (∃ e, pipelinePrepare [] "GBP" = Except.error e) ∧
    pipelinePrepare [txnJan, txnFeb, txnMar] "GBP" =
      Except.ok (aggregateByMonth (filterByCurrency [txnJan, txnFeb, txnMar] "GBP")) :=
  ⟨(spec_c2.1 []).mpr rfl, spec_c2.2.1 [] "GBP" (by decide),
    spec_c2.2.2.1 [txnJan, txnFeb, txnMar] "GBP" (by decide)⟩

/-- C10: a row with matching field count and an *empty* type field parses to
the literal type `expense`; and the aggregator books the amount of any
transaction whose type is not the literal `income` (including an undefined
type) into `totalExpenses`, with `totalIncome` untouched. -/
theorem spec_c10 :
    (∀ hs vs, hs.length = vs.length → lookupLast hs vs "type" = some "" →
      (typedRow hs vs).type = some "expense") ∧
    (∀ t : CSVTransaction, t.type ≠ some "income" → ∀ y m,
      dateYM t.date = some (y, m) →
      aggregateByMonth [t] = [⟨y, m, monthKeyOf y m, JsNum.num 0, t.amount, 1⟩]) := by
  constructor
  · intro hs vs _hlen htype
    simp [typedRow, fieldOr, htype]
  · intro t htype y m hym
    have hymt : ymOfTxn t = (y, m) := by simp [ymOfTxn, hym]
    unfold aggregateByMonth
    have hfold : [t].foldl addTxn [] = [⟨y, m, monthKeyOf y m, JsNum.num 0, t.amount, 1⟩] := by
      simp [addTxn, hymt, updateEntry, htype, js_zero_add]
    rw [hfold]
    simp [List.insertionSort, List.orderedInsert]

/-- C10 witness: the parse part at a concrete row, the aggregation part at a
concrete non-income March transaction. -/
theorem spec_c10_witness :
    (typedRow ["type"] [""]).type = some "expense" ∧
      aggregateByMonth [txnMar] =
        [⟨2024, 3, monthKeyOf 2024 3, JsNum.num 0, txnMar.amount, 1⟩] :=
  ⟨spec_c10.1 ["type"] [""] rfl rfl, spec_c10.2 txnMar (by decide) 2024 3 (by decide)⟩

theorem stepMonth_lt (ym : Nat × Nat) : ymLt ym (stepMonth ym) := by
  unfold stepMonth ymLt
  split
  · left; omega
  · right; exact ⟨rfl, by omega⟩

theorem ymLt_trans {a b c : Nat × Nat} (h1 : ymLt a b) (h2 : ymLt b c) : ymLt a c := by
  unfold ymLt at h1 h2 ⊢
  omega

theorem stepMonth_iterate_lt (p : Nat × Nat) :
    ∀ n : Nat, 0 < n → ymLt p (stepMonth^[n] p) := by
  intro n
  induction n with
  | zero => intro h; exact absurd h (by omega)
  | succ n ih =>
    intro _
    rcases Nat.eq_zero_or_pos n with h0 | hp
    · subst h0
      simpa using stepMonth_lt p
    · rw [Function.iterate_succ_apply']
      exact ymLt_trans (ih hp) (stepMonth_lt _)

theorem stepMonth_iter_pairwise (ym : Nat × Nat) (N : Nat) :
    List.Pairwise ymLt ((List.range N).map (fun k => stepMonth^[k + 1] ym)) := by
  rw [List.pairwise_map]
  refine (List.pairwise_lt_range N).imp ?_
  intro a b hab
  have hiter : stepMonth^[b + 1] ym = stepMonth^[b - a] (stepMonth^[a + 1] ym) := by
    rw [← Function.iterate_add_apply]
    congr 1
    omega
  rw [hiter]
  exact stepMonth_iterate_lt _ _ (by omega)

theorem projLoop_length (predI predE : JsNum → JsNum → JsNum → JsNum → JsNum)
    (maxI maxE : JsNum) (minY maxY : Nat) :
    ∀ (n : Nat) (ym : Nat × Nat) (recI recE : List JsNum),
      (projLoop predI predE maxI maxE minY maxY n ym recI recE).length = n := by
  intro n
  induction n with
  | zero => intro ym rI rE; rfl
  | succ n ih =>
    intro ym rI rE
    simp only [projLoop, List.length_cons, ih]

theorem projLoop_keys (predI predE : JsNum → JsNum → JsNum → JsNum → JsNum)
    (maxI maxE : JsNum) (minY maxY : Nat) :
    ∀ (n : Nat) (ym : Nat × Nat) (recI recE : List JsNum),
      (projLoop predI predE maxI maxE minY maxY n ym recI recE).map (fun p => p.monthKey) =
        (List.range n).map
          (fun k => monthKeyOf (stepMonth^[k + 1] ym).1 (stepMonth^[k + 1] ym).2) := by
  intro n
  induction n with
  | zero => intro ym rI rE; rfl
  | succ n ih =>
    intro ym rI rE
    rw [List.range_succ_eq_map, List.map_cons, List.map_map]
    simp only [projLoop, List.map_cons]
    have hstep : (if ym.2 + 1 > 12 then (ym.1 + 1, 1) else (ym.1, ym.2 + 1)) = stepMonth ym := rfl
    rw [hstep, ih]
    rfl

/-- C1: for a non-empty history whose last month is a calendar month, the
projector emits exactly N months; their keys are precisely the keys of the
1st through Nth calendar successors of the last historical month (hence
contiguous, gap-free, starting immediately after it, wrapping 12 to 1 into
the next year), and that successor sequence is strictly increasing. -/
theorem spec_c1 (predI predE : JsNum → JsNum → JsNum → JsNum → JsNum)
    (md : List MonthlyData) (maxI maxE : JsNum) (minY maxY : Nat) (N : Nat)
    (lastM : MonthlyData) (hlast : md.getLast? = some lastM)
    (_hm1 : 1 ≤ lastM.month) (_hm2 : lastM.month ≤ 12) :
    (generateProjections predI predE md maxI maxE minY maxY N).length = N ∧
    (generateProjections predI predE md maxI maxE minY maxY N).map (fun p => p.monthKey) =
      (List.range N).map
        (fun k => monthKeyOf (stepMonth^[k + 1] (lastM.year, lastM.month)).1
          (stepMonth^[k + 1] (lastM.year, lastM.month)).2) ∧
    List.Pairwise ymLt
      ((List.range N).map (fun k => stepMonth^[k + 1] (lastM.year, lastM.month))) := by
  have hgd : md.getLast?.getD mdZero = lastM := by rw [hlast]; rfl
  simp only [generateProjections, hgd]
  exact ⟨projLoop_length predI predE maxI maxE minY maxY N _ _ _,
    projLoop_keys predI predE maxI maxE minY maxY N _ _ _,
    stepMonth_iter_pairwise _ N⟩

/-- C1 witness: a one-month November 2024 history, horizon 2, constant
models. -/
theorem spec_c1_witness :
    (generateProjections zeroModel zeroModel mdNov (JsNum.num 0) (JsNum.num 0)
        2024 2024 2).length = 2 ∧
    (generateProjections zeroModel zeroModel mdNov (JsNum.num 0) (JsNum.num 0)
        2024 2024 2).map (fun p => p.monthKey) =
      (List.range 2).map
        (fun k => monthKeyOf (stepMonth^[k + 1] (2024, 11)).1
          (stepMonth^[k + 1] (2024, 11)).2) ∧
    List.Pairwise ymLt ((List.range 2).map (fun k => stepMonth^[k + 1] (2024, 11))) :=
  spec_c1 zeroModel zeroModel mdNov (JsNum.num 0) (JsNum.num 0) 2024 2024 2
    ⟨2024, 11, "2024-11", JsNum.num 0, JsNum.num 0, 0⟩ rfl (by decide) (by decide)

theorem decodeProj_encodeProj (p : ProjectedMonthlyData)
    (hi : ∃ q, p.projectedIncome = JsNum.num q)
    (he : ∃ q, p.projectedExpenses = JsNum.num q) :
    decodeProj (encodeProj p) = some p := by
  obtain ⟨k, pin, pex⟩ := p
  obtain ⟨qi, hqi⟩ := hi
  obtain ⟨qe, hqe⟩ := he
  simp only at hqi hqe
  subst hqi
  subst hqe
  simp [encodeProj, decodeProj, List.lookup, encodeNum, decodeNum]

theorem decodeProjList_encode (ps : List ProjectedMonthlyData)
    (h : ∀ p ∈ ps,
      (∃ q, p.projectedIncome = JsNum.num q) ∧ (∃ q, p.projectedExpenses = JsNum.num q)) :
    decodeProjList (ps.map encodeProj) = some ps := by
  induction ps with
  | nil => rfl
  | cons p ps ih =>
    obtain ⟨hp, hps⟩ := List.forall_mem_cons.mp h
    simp [decodeProjList, decodeProj_encodeProj p hp.1 hp.2, ih hps]

theorem decodeResult_encodeResult (r : ProjectionResult) (h : SerializableResult r) :
    decodeResult (encodeResult r) = some r := by
  obtain ⟨projs, acc, td, hm⟩ := r
  obtain ⟨hps, hacc⟩ := h
  simp only at hps
  have hnat : decodeNatJ (JVal.jnum (hm : ℚ)) = some hm := by
    simp [decodeNatJ, Rat.den_natCast, Rat.num_natCast]
  rcases hacc with hnone | hsome
  · simp only at hnone
    subst hnone
    simp [encodeResult, decodeResult, List.lookup, decodeProjList_encode projs hps, hnat]
  · obtain ⟨q, hq⟩ := hsome
    simp only at hq
    subst hq
    simp [encodeResult, decodeResult, List.lookup, decodeProjList_encode projs hps, hnat,
      encodeNum, decodeNum]

/-- C8: assuming the underlying store write succeeds, saving a
JSON-serializable projection bundle and then loading returns exactly the
serialized payload, whose typed reading is deep-equal to the original. -/
theorem spec_c8 (r : ProjectionResult) (st : KVStore)
    (hw : st.writeFails = false) (hs : SerializableResult r) :
    ∃ st2, saveProjectionsToStorage r st = Except.ok st2 ∧
      loadProjectionsFromStorage st2 = some (encodeResult r) ∧
      decodeResult (encodeResult r) = some r := by
  refine ⟨{ st with slot := some (StoredPayload.valid (encodeResult r)) }, ?_, rfl,
    decodeResult_encodeResult r hs⟩
  unfold saveProjectionsToStorage setItem
  simp [hw]

/-- C8 witness: the empty bundle in an empty healthy store. -/
theorem spec_c8_witness :
    ∃ st2, saveProjectionsToStorage emptyResult okStore = Except.ok st2 ∧
      loadProjectionsFromStorage st2 = some (encodeResult emptyResult) ∧
      decodeResult (encodeResult emptyResult) = some emptyResult :=
  spec_c8 emptyResult okStore rfl
    ⟨by intro p hp; simp [emptyResult] at hp, Or.inl rfl⟩

theorem foldl_min_le_init (t : List Nat) : ∀ h0 : Nat, t.foldl min h0 ≤ h0 := by
  induction t with
  | nil => intro h0; exact le_refl h0
  | cons a t ih =>
    intro h0
    exact le_trans (ih (min h0 a)) (min_le_left _ _)

theorem foldl_min_le_mem (t : List Nat) :
    ∀ (h0 x : Nat), x ∈ t → t.foldl min h0 ≤ x := by
  induction t with
  | nil => intro h0 x hx; cases hx
  | cons a t ih =>
    intro h0 x hx
    rcases List.mem_cons.mp hx with rfl | hx
    · exact le_trans (foldl_min_le_init t (min h0 x)) (min_le_right _ _)
    · exact ih (min h0 a) x hx

theorem le_foldl_max_init (t : List Nat) : ∀ h0 : Nat, h0 ≤ t.foldl max h0 := by
  induction t with
  | nil => intro h0; exact le_refl h0
  | cons a t ih =>
    intro h0
    exact le_trans (le_max_left _ _) (ih (max h0 a))

theorem le_foldl_max_mem (t : List Nat) :
    ∀ (h0 x : Nat), x ∈ t → x ≤ t.foldl max h0 := by
  induction t with
  | nil => intro h0 x hx; cases hx
  | cons a t ih =>
    intro h0 x hx
    rcases List.mem_cons.mp hx with rfl | hx
    · exact le_trans (le_max_right _ _) (le_foldl_max_init t (max h0 x))
    · exact ih (max h0 a) x hx

theorem natMinList_le {l : List Nat} {x : Nat} (hx : x ∈ l) : natMinList l ≤ x := by
  cases l with
  | nil => cases hx
  | cons h t =>
    rcases List.mem_cons.mp hx with rfl | hx
    · exact foldl_min_le_init t x
    · exact foldl_min_le_mem t h x hx

theorem le_natMaxList {l : List Nat} {x : Nat} (hx : x ∈ l) : x ≤ natMaxList l := by
  cases l with
  | nil => cases hx
  | cons h t =>
    rcases List.mem_cons.mp hx with rfl | hx
    · exact le_foldl_max_init t x
    · exact le_foldl_max_mem t h x hx

theorem foldl_jsMax_num (l : List JsNum) :
    ∀ a : ℚ, (∀ x ∈ l, ∃ q, x = JsNum.num q) →
      ∃ M, l.foldl JsNum.jsMax (JsNum.num a) = JsNum.num M ∧ a ≤ M ∧
        ∀ x ∈ l, ∀ q, x = JsNum.num q → q ≤ M := by
  induction l with
  | nil =>
    intro a _
    exact ⟨a, rfl, le_refl a, by intro x hx; cases hx⟩
  | cons x t ih =>
    intro a h
    obtain ⟨q, rfl⟩ := h x (by simp)
    obtain ⟨M, hM, haM, hbd⟩ := ih (max a q) (fun y hy => h y (by simp [hy]))
    refine ⟨M, ?_, le_trans (le_max_left _ _) haM, ?_⟩
    · simpa [JsNum.jsMax] using hM
    · intro y hy r hr
      rcases List.mem_cons.mp hy with rfl | hy
      · rw [JsNum.num.injEq] at hr
        subst hr
        exact le_trans (le_max_right a q) haM
      · exact hbd y hy r hr

theorem jsMaxList_num (l : List JsNum) (hl : l ≠ [])
    (h : ∀ x ∈ l, ∃ q, x = JsNum.num q) :
    ∃ M, jsMaxList l = JsNum.num M ∧
      ∀ x ∈ l, ∀ q, x = JsNum.num q → q ≤ M := by
  cases l with
  | nil => exact absurd rfl hl
  | cons x t =>
    obtain ⟨q0, rfl⟩ := h x (by simp)
    obtain ⟨M, hM, haM, hbd⟩ := foldl_jsMax_num t q0 (fun y hy => h y (by simp [hy]))
    refine ⟨M, ?_, ?_⟩
    · simpa [jsMaxList, JsNum.jsMax] using hM
    · intro y hy r hr
      rcases List.mem_cons.mp hy with rfl | hy
      · cases hr
        exact haM
      · exact hbd y hy r hr

theorem foldl_add_num (l : List JsNum) :
    ∀ a : ℚ, (∀ x ∈ l, ∃ q, x = JsNum.num q) →
      l.foldl JsNum.add (JsNum.num a) = JsNum.num (a + (l.map JsNum.toQ).sum) := by
  induction l with
  | nil => intro a _; simp
  | cons x t ih =>
    intro a h
    obtain ⟨q, rfl⟩ := h x (by simp)
    rw [List.foldl_cons]
    show t.foldl JsNum.add (JsNum.num (a + q)) = _
    rw [ih (a + q) (fun y hy => h y (by simp [hy]))]
    simp [JsNum.toQ, add_assoc]

theorem jsSum_num (l : List JsNum) (h : ∀ x ∈ l, ∃ q, x = JsNum.num q) :
    jsSum l = JsNum.num ((l.map JsNum.toQ).sum) := by
  have := foldl_add_num l 0 h
  simpa [jsSum] using this

theorem sum_toQ_nonneg (l : List JsNum)
    (h : ∀ x ∈ l, ∃ q, x = JsNum.num q ∧ 0 ≤ q) : 0 ≤ (l.map JsNum.toQ).sum := by
  refine List.sum_nonneg ?_
  intro x hx
  obtain ⟨y, hy, rfl⟩ := List.mem_map.mp hx
  obtain ⟨q, rfl, hq⟩ := h y hy
  simpa [JsNum.toQ] using hq

theorem sum_toQ_le (l : List JsNum) (M : ℚ)
    (h : ∀ x ∈ l, ∃ q, x = JsNum.num q ∧ q ≤ M) :
    (l.map JsNum.toQ).sum ≤ (l.length : ℚ) * M := by
  have hb : ∀ x ∈ l.map JsNum.toQ, x ≤ M := by
    intro x hx
    obtain ⟨y, hy, rfl⟩ := List.mem_map.mp hx
    obtain ⟨q, rfl, hq⟩ := h y hy
    simpa [JsNum.toQ] using hq
  have := List.sum_le_card_nsmul (l.map JsNum.toQ) M hb
  simpa [nsmul_eq_mul] using this

theorem windowAvg_bounds (vals : List JsNum) (i : Nat) (M : ℚ) (hM : 0 ≤ M)
    (h : ∀ x ∈ vals, ∃ q, x = JsNum.num q ∧ 0 ≤ q ∧ q ≤ M) :
    ∃ A, windowAvg vals i = JsNum.num A ∧ 0 ≤ A ∧ A ≤ M := by
  unfold windowAvg
  by_cases hlb : 0 < min i 3
  · set lb := min i 3 with hlbdef
    set w := (vals.drop (i - lb)).take lb with hw
    have hsub : ∀ x ∈ w, x ∈ vals := by
      intro x hx
      exact List.drop_subset _ _ (List.take_subset _ _ hx)
    have hwnum : ∀ x ∈ w, ∃ q, x = JsNum.num q := by
      intro x hx
      obtain ⟨q, hq, _⟩ := h x (hsub x hx)
      exact ⟨q, hq⟩
    have hsum := jsSum_num w hwnum
    have hpos : (0 : ℚ) < (lb : ℚ) := by
      exact_mod_cast hlb
    have hle : (w.map JsNum.toQ).sum ≤ (lb : ℚ) * M := by
      refine le_trans (sum_toQ_le w M ?_) ?_
      · intro x hx
        obtain ⟨q, hq, _, hqM⟩ := h x (hsub x hx)
        exact ⟨q, hq, hqM⟩
      · have hlen : w.length ≤ lb := by
          rw [hw]
          exact le_trans (List.length_take_le _ _) (le_refl _)
        have : (w.length : ℚ) ≤ (lb : ℚ) := by exact_mod_cast hlen
        nlinarith
    have hnn : 0 ≤ (w.map JsNum.toQ).sum := by
      refine sum_toQ_nonneg w ?_
      intro x hx
      obtain ⟨q, hq, hq0, _⟩ := h x (hsub x hx)
      exact ⟨q, hq, hq0⟩
    refine ⟨(w.map JsNum.toQ).sum / (lb : ℚ), ?_, ?_, ?_⟩
    · rw [if_pos hlb, hsum]
      have hlbne : (lb : ℚ) ≠ 0 := ne_of_gt hpos
      simp [JsNum.div, hlbne]
    · exact div_nonneg hnn (le_of_lt hpos)
    · rw [div_le_iff₀ hpos]
      calc (w.map JsNum.toQ).sum ≤ (lb : ℚ) * M := hle
        _ = M * (lb : ℚ) := by ring
  · exact ⟨0, by rw [if_neg hlb], le_refl 0, hM⟩

theorem normBy_bounds (x : JsNum) (M : ℚ)
    (hx : ∃ q, x = JsNum.num q ∧ 0 ≤ q ∧ q ≤ M) :
    ∃ r, normBy x (JsNum.num M) = JsNum.num r ∧ 0 ≤ r ∧ r ≤ 1 := by
  obtain ⟨q, rfl, hq0, hqM⟩ := hx
  unfold normBy JsNum.gtZero
  by_cases hM : 0 < M
  · refine ⟨q / M, ?_, div_nonneg hq0 (le_of_lt hM), by
      rw [div_le_one hM]; exact hqM⟩
    have hMne : M ≠ 0 := ne_of_gt hM
    simp [hM, JsNum.div, hMne]
  · exact ⟨0, by simp [hM], le_refl 0, by norm_num⟩

theorem normBy_zero (x : JsNum) : normBy x (JsNum.num 0) = JsNum.num 0 := by
  simp [normBy, JsNum.gtZero]

theorem normMonth_bounds (m : Nat) (h1 : 1 ≤ m) (h2 : m ≤ 12) :
    0 ≤ normMonth m ∧ normMonth m ≤ 1 := by
  unfold normMonth
  constructor
  · positivity
  · rw [div_le_one (by norm_num)]
    exact_mod_cast h2

theorem normYear_bounds (y minY maxY : Nat) (h1 : minY ≤ y) (h2 : y ≤ maxY) :
    0 ≤ normYear y minY maxY ∧ normYear y minY maxY ≤ 1 := by
  unfold normYear yearRangeQ
  have hc1 : (minY : ℚ) ≤ (y : ℚ) := by exact_mod_cast h1
  have hc2 : (y : ℚ) ≤ (maxY : ℚ) := by exact_mod_cast h2
  by_cases hr : 0 < (maxY : ℚ) - (minY : ℚ)
  · rw [if_pos hr]
    constructor
    · exact div_nonneg (by linarith) (le_of_lt hr)
    · rw [div_le_one hr]
      linarith
  · rw [if_neg hr]
    have hy : (y : ℚ) - (minY : ℚ) = 0 := by linarith
    rw [hy]
    norm_num

theorem isNonnegNum_iff (x : JsNum) :
    x.IsNonnegNum ↔ ∃ q, x = JsNum.num q ∧ 0 ≤ q := by
  cases x <;> simp [JsNum.IsNonnegNum]

/-- C5: for any non-empty aggregate history with finite non-negative totals
and calendar months, feature creation succeeds and every feature component
and label is a finite number in [0, 1]; a historical maximum of 0 for a
target forces that target's moving-average feature (component 2 resp. 3) and
every label of that target to be exactly 0, with no division error or NaN. -/
theorem spec_c5 (md : List MonthlyData) (hne : md ≠ [])
    (h : ∀ d ∈ md, d.totalIncome.IsNonnegNum ∧ d.totalExpenses.IsNonnegNum ∧
      1 ≤ d.month ∧ d.month ≤ 12) :
    ∃ fo, createFeatures md = Except.ok fo ∧
      (∀ fv ∈ fo.features, ∀ x ∈ fv, ∃ q, x = JsNum.num q ∧ 0 ≤ q ∧ q ≤ 1) ∧
      (∀ x ∈ fo.incomeLabels, ∃ q, x = JsNum.num q ∧ 0 ≤ q ∧ q ≤ 1) ∧
      (∀ x ∈ fo.expenseLabels, ∃ q, x = JsNum.num q ∧ 0 ≤ q ∧ q ≤ 1) ∧
      (fo.maxIncome = JsNum.num 0 →
        (∀ fv ∈ fo.features, fv.getD 2 JsNum.nan = JsNum.num 0) ∧
        ∀ x ∈ fo.incomeLabels, x = JsNum.num 0) ∧
      (fo.maxExpense = JsNum.num 0 →
        (∀ fv ∈ fo.features, fv.getD 3 JsNum.nan = JsNum.num 0) ∧
        ∀ x ∈ fo.expenseLabels, x = JsNum.num 0) := by
  have hlen : ¬ md.length = 0 := by simpa [List.length_eq_zero] using hne
  have hItotal : ∀ d ∈ md, ∃ q, d.totalIncome = JsNum.num q ∧ 0 ≤ q :=
    fun d hd => (isNonnegNum_iff _).mp (h d hd).1
  have hEtotal : ∀ d ∈ md, ∃ q, d.totalExpenses = JsNum.num q ∧ 0 ≤ q :=
    fun d hd => (isNonnegNum_iff _).mp (h d hd).2.1
  have hImapne : md.map (fun d => d.totalIncome) ≠ [] := by simpa using hne
  have hEmapne : md.map (fun d => d.totalExpenses) ≠ [] := by simpa using hne
  obtain ⟨MI, hMI, hMIbd⟩ := jsMaxList_num (md.map (fun d => d.totalIncome)) hImapne
    (by
      intro x hx
      obtain ⟨d, hd, rfl⟩ := List.mem_map.mp hx
      obtain ⟨q, hq, _⟩ := hItotal d hd
      exact ⟨q, hq⟩)
  obtain ⟨ME, hME, hMEbd⟩ := jsMaxList_num (md.map (fun d => d.totalExpenses)) hEmapne
    (by
      intro x hx
      obtain ⟨d, hd, rfl⟩ := List.mem_map.mp hx
      obtain ⟨q, hq, _⟩ := hEtotal d hd
      exact ⟨q, hq⟩)
  obtain ⟨d0, md0, hmd0⟩ := List.exists_cons_of_ne_nil hne
  have hd0 : d0 ∈ md := by rw [hmd0]; simp
  have hMI0 : 0 ≤ MI := by
    obtain ⟨q, hq, hq0⟩ := hItotal d0 hd0
    exact le_trans hq0 (hMIbd _ (List.mem_map.mpr ⟨d0, hd0, rfl⟩) q hq)
  have hME0 : 0 ≤ ME := by
    obtain ⟨q, hq, hq0⟩ := hEtotal d0 hd0
    exact le_trans hq0 (hMEbd _ (List.mem_map.mpr ⟨d0, hd0, rfl⟩) q hq)
  have hIbound : ∀ d ∈ md, ∃ q, d.totalIncome = JsNum.num q ∧ 0 ≤ q ∧ q ≤ MI := by
    intro d hd
    obtain ⟨q, hq, hq0⟩ := hItotal d hd
    exact ⟨q, hq, hq0, hMIbd _ (List.mem_map.mpr ⟨d, hd, rfl⟩) q hq⟩
  have hEbound : ∀ d ∈ md, ∃ q, d.totalExpenses = JsNum.num q ∧ 0 ≤ q ∧ q ≤ ME := by
    intro d hd
    obtain ⟨q, hq, hq0⟩ := hEtotal d hd
    exact ⟨q, hq, hq0, hMEbd _ (List.mem_map.mpr ⟨d, hd, rfl⟩) q hq⟩
  have hwI : ∀ i, ∃ A, windowAvg (md.map (fun d => d.totalIncome)) i = JsNum.num A ∧
      0 ≤ A ∧ A ≤ MI := by
    intro i
    refine windowAvg_bounds _ i MI hMI0 ?_
    intro x hx
    obtain ⟨d, hd, rfl⟩ := List.mem_map.mp hx
    exact hIbound d hd
  have hwE : ∀ i, ∃ A, windowAvg (md.map (fun d => d.totalExpenses)) i = JsNum.num A ∧
      0 ≤ A ∧ A ≤ ME := by
    intro i
    refine windowAvg_bounds _ i ME hME0 ?_
    intro x hx
    obtain ⟨d, hd, rfl⟩ := List.mem_map.mp hx
    exact hEbound d hd
  have hymin : ∀ d ∈ md, natMinList (md.map (fun d => d.year)) ≤ d.year :=
    fun d hd => natMinList_le (List.mem_map.mpr ⟨d, hd, rfl⟩)
  have hymax : ∀ d ∈ md, d.year ≤ natMaxList (md.map (fun d => d.year)) :=
    fun d hd => le_natMaxList (List.mem_map.mpr ⟨d, hd, rfl⟩)
  refine
    ⟨{ features :=
          (List.range md.length).map
            (featureRow md (jsMaxList (md.map (fun d => d.totalIncome)))
              (jsMaxList (md.map (fun d => d.totalExpenses)))
              (natMinList (md.map (fun d => d.year)))
              (natMaxList (md.map (fun d => d.year)))),
       incomeLabels :=
          md.map (fun d => normBy d.totalIncome (jsMaxList (md.map (fun d => d.totalIncome)))),
       expenseLabels :=
          md.map (fun d => normBy d.totalExpenses (jsMaxList (md.map (fun d => d.totalExpenses)))),
       maxIncome := jsMaxList (md.map (fun d => d.totalIncome)),
       maxExpense := jsMaxList (md.map (fun d => d.totalExpenses)),
       minYear := natMinList (md.map (fun d => d.year)),
       maxYear := natMaxList (md.map (fun d => d.year)) }, ?_, ?_, ?_, ?_, ?_, ?_⟩
  · unfold createFeatures
    rw [if_neg hlen]
  · intro fv hfv x hx
    simp only [List.mem_map, List.mem_range] at hfv
    obtain ⟨i, hi, rfl⟩ := hfv
    have hdmem : md.getD i mdZero ∈ md := by
      rw [List.getD_eq_getElem md mdZero hi]
      exact List.getElem_mem hi
    obtain ⟨_, _, hm1, hm2⟩ := h _ hdmem
    simp only [featureRow, List.mem_cons, List.not_mem_nil, or_false] at hx
    rcases hx with rfl | rfl | rfl | rfl
    · obtain ⟨hb0, hb1⟩ := normMonth_bounds _ hm1 hm2
      exact ⟨_, rfl, hb0, hb1⟩
    · obtain ⟨hb0, hb1⟩ := normYear_bounds _ _ _ (hymin _ hdmem) (hymax _ hdmem)
      exact ⟨_, rfl, hb0, hb1⟩
    · rw [hMI]
      obtain ⟨A, hA, hA0, hAM⟩ := hwI i
      rw [hA]
      exact normBy_bounds _ MI ⟨A, rfl, hA0, hAM⟩
    · rw [hME]
      obtain ⟨A, hA, hA0, hAM⟩ := hwE i
      rw [hA]
      exact normBy_bounds _ ME ⟨A, rfl, hA0, hAM⟩
  · intro x hx
    simp only [List.mem_map] at hx
    obtain ⟨d, hd, rfl⟩ := hx
    rw [hMI]
    obtain ⟨q, hq, hq0, hqM⟩ := hIbound d hd
    rw [hq]
    exact normBy_bounds _ MI ⟨q, rfl, hq0, hqM⟩
  · intro x hx
    simp only [List.mem_map] at hx
    obtain ⟨d, hd, rfl⟩ := hx
    rw [hME]
    obtain ⟨q, hq, hq0, hqM⟩ := hEbound d hd
    rw [hq]
    exact normBy_bounds _ ME ⟨q, rfl, hq0, hqM⟩
  · intro hzero
    dsimp only at hzero
    constructor
    · intro fv hfv
      simp only [List.mem_map, List.mem_range] at hfv
      obtain ⟨i, hi, rfl⟩ := hfv
      simp only [featureRow, List.getD]
      rw [hzero]
      exact normBy_zero _
    · intro x hx
      simp only [List.mem_map] at hx
      obtain ⟨d, hd, rfl⟩ := hx
      rw [hzero]
      exact normBy_zero _
  · intro hzero
    dsimp only at hzero
    constructor
    · intro fv hfv
      simp only [List.mem_map, List.mem_range] at hfv
      obtain ⟨i, hi, rfl⟩ := hfv
      simp only [featureRow, List.getD]
      rw [hzero]
      exact normBy_zero _
    · intro x hx
      simp only [List.mem_map] at hx
      obtain ⟨d, hd, rfl⟩ := hx
      rw [hzero]
      exact normBy_zero _

/-- C5 witness: the three-month all-zero history. -/
theorem spec_c5_witness :
    ∃ fo, createFeatures mdThree = Except.ok fo ∧
      (∀ fv ∈ fo.features, ∀ x ∈ fv, ∃ q, x = JsNum.num q ∧ 0 ≤ q ∧ q ≤ 1) ∧
      (∀ x ∈ fo.incomeLabels, ∃ q, x = JsNum.num q ∧ 0 ≤ q ∧ q ≤ 1) ∧
      (∀ x ∈ fo.expenseLabels, ∃ q, x = JsNum.num q ∧ 0 ≤ q ∧ q ≤ 1) ∧
      (fo.maxIncome = JsNum.num 0 →
        (∀ fv ∈ fo.features, fv.getD 2 JsNum.nan = JsNum.num 0) ∧
        ∀ x ∈ fo.incomeLabels, x = JsNum.num 0) ∧
      (fo.maxExpense = JsNum.num 0 →
        (∀ fv ∈ fo.features, fv.getD 3 JsNum.nan = JsNum.num 0) ∧
        ∀ x ∈ fo.expenseLabels, x = JsNum.num 0) :=
  spec_c5 mdThree (by simp [mdThree])
    (by
      intro d hd
      simp only [mdThree, List.mem_cons, List.not_mem_nil, or_false] at hd
      rcases hd with rfl | rfl | rfl <;>
        exact ⟨by simp [JsNum.IsNonnegNum], by simp [JsNum.IsNonnegNum],
          by norm_num, by norm_num⟩)

theorem toDecAux_irrel : ∀ (n f1 f2 : Nat), n < f1 → n < f2 → toDecAux f1 n = toDecAux f2 n := by
  intro n
  induction n using Nat.strong_induction_on with
  | _ n ih =>
    intro f1 f2 h1 h2
    obtain ⟨g1, rfl⟩ : ∃ g, f1 = g + 1 := ⟨f1 - 1, by omega⟩
    obtain ⟨g2, rfl⟩ : ∃ g, f2 = g + 1 := ⟨f2 - 1, by omega⟩
    show (if n < 10 then [Nat.digitChar n]
        else toDecAux g1 (n / 10) ++ [Nat.digitChar (n % 10)]) =
      (if n < 10 then [Nat.digitChar n]
        else toDecAux g2 (n / 10) ++ [Nat.digitChar (n % 10)])
    by_cases h10 : n < 10
    · rw [if_pos h10, if_pos h10]
    · rw [if_neg h10, if_neg h10]
      have hdiv : n / 10 < n := Nat.div_lt_self (by omega) (by omega)
      rw [ih (n / 10) hdiv g1 g2 (by omega) (by omega)]

theorem toDecChars_eq (n : Nat) :
    toDecChars n = if n < 10 then [Nat.digitChar n]
      else toDecChars (n / 10) ++ [Nat.digitChar (n % 10)] := by
  show toDecAux (n + 1) n = _
  by_cases h10 : n < 10
  · rw [if_pos h10]
    show (if n < 10 then _ else _) = _
    rw [if_pos h10]
  · rw [if_neg h10]
    show (if n < 10 then _ else _) = _
    rw [if_neg h10]
    have hdiv : n / 10 < n := Nat.div_lt_self (by omega) (by omega)
    rw [toDecAux_irrel (n / 10) n (n / 10 + 1) (by omega) (by omega)]
    rfl

theorem digitChar_dig {n : Nat} (h : n < 10) : isDig (Nat.digitChar n) = true := by
  interval_cases n <;> decide

theorem digitChar_val {n : Nat} (h : n < 10) : (Nat.digitChar n).toNat - 48 = n := by
  interval_cases n <;> decide

theorem toDecChars_all_dig (n : Nat) : ∀ c ∈ toDecChars n, isDig c = true := by
  induction n using Nat.strong_induction_on with
  | _ n ih =>
    rw [toDecChars_eq]
    by_cases h10 : n < 10
    · rw [if_pos h10]
      intro c hc
      rw [List.mem_singleton.mp hc]
      exact digitChar_dig h10
    · rw [if_neg h10]
      intro c hc
      rcases List.mem_append.mp hc with hc | hc
      · exact ih (n / 10) (Nat.div_lt_self (by omega) (by omega)) c hc
      · rw [List.mem_singleton.mp hc]
        exact digitChar_dig (Nat.mod_lt n (by omega))
    
theorem toDecChars_ne_nil (n : Nat) : toDecChars n ≠ [] := by
  rw [toDecChars_eq]
  by_cases h10 : n < 10
  · rw [if_pos h10]; simp
  · rw [if_neg h10]; simp

theorem digsVal_append_one (l : List Char) (c : Char) :
    digsVal (l ++ [c]) = 10 * digsVal l + (c.toNat - 48) := by
  simp [digsVal, List.foldl_append]

theorem digsVal_toDecChars (n : Nat) : digsVal (toDecChars n) = n := by
  induction n using Nat.strong_induction_on with
  | _ n ih =>
    rw [toDecChars_eq]
    by_cases h10 : n < 10
    · rw [if_pos h10]
      show 10 * 0 + ((Nat.digitChar n).toNat - 48) = n
      rw [digitChar_val h10]
      omega
    · rw [if_neg h10, digsVal_append_one,
        ih (n / 10) (Nat.div_lt_self (by omega) (by omega)),
        digitChar_val (Nat.mod_lt n (by omega))]
      omega

theorem toDecChars_inj {a b : Nat} (h : toDecChars a = toDecChars b) : a = b := by
  rw [← digsVal_toDecChars a, ← digsVal_toDecChars b, h]

theorem toDecChars_no_lead_zero : ∀ (n : Nat) (l : List Char),
    toDecChars n = '0' :: l → n = 0 := by
  intro n
  induction n using Nat.strong_induction_on with
  | _ n ih =>
    intro l h
    rw [toDecChars_eq] at h
    by_cases h10 : n < 10
    · rw [if_pos h10] at h
      have h1 : Nat.digitChar n = '0' := by injection h
      interval_cases n
      · rfl
      all_goals exact absurd h1 (by decide)
    · rw [if_neg h10] at h
      obtain ⟨c0, l0, hc⟩ := List.exists_cons_of_ne_nil (toDecChars_ne_nil (n / 10))
      rw [hc, List.cons_append] at h
      injection h with h1 h2
      subst h1
      have : n / 10 = 0 := ih (n / 10) (Nat.div_lt_self (by omega) (by omega)) l0 hc
      omega

theorem toDecChars_zero : toDecChars 0 = ['0'] := by decide

theorem pad2c_toDecChars_inj {a b : Nat}
    (h : pad2c (toDecChars a) = pad2c (toDecChars b)) : a = b := by
  unfold pad2c at h
  have ha1 : 1 ≤ (toDecChars a).length := by
    have := toDecChars_ne_nil a
    cases hA : toDecChars a with
    | nil => exact absurd hA this
    | cons x xs => simp [hA]
  have hb1 : 1 ≤ (toDecChars b).length := by
    have := toDecChars_ne_nil b
    cases hB : toDecChars b with
    | nil => exact absurd hB this
    | cons x xs => simp [hB]
  by_cases hA2 : (toDecChars a).length < 2 <;> by_cases hB2 : (toDecChars b).length < 2
  · rw [if_pos hA2, if_pos hB2] at h
    have hrep : 2 - (toDecChars a).length = 1 := by omega
    have hrep2 : 2 - (toDecChars b).length = 1 := by omega
    rw [hrep, hrep2] at h
    simp only [List.replicate, List.singleton_append] at h
    exact toDecChars_inj (by injection h)
  · rw [if_pos hA2, if_neg hB2] at h
    have hrep : 2 - (toDecChars a).length = 1 := by omega
    rw [hrep] at h
    simp only [List.replicate, List.singleton_append] at h
    have hb0 : b = 0 := toDecChars_no_lead_zero b _ h.symm
    subst hb0
    rw [toDecChars_zero] at hB2
    simp at hB2
  · rw [if_neg hA2, if_pos hB2] at h
    have hrep : 2 - (toDecChars b).length = 1 := by omega
    rw [hrep] at h
    simp only [List.replicate, List.singleton_append] at h
    have ha0 : a = 0 := toDecChars_no_lead_zero a _ h
    subst ha0
    rw [toDecChars_zero] at hA2
    simp at hA2
  · rw [if_neg hA2, if_neg hB2] at h
    exact toDecChars_inj h

theorem splitDash : ∀ (A1 : List Char) (B1 : List Char) (A2 : List Char) (B2 : List Char),
    (∀ c ∈ A1, isDig c = true) → (∀ c ∈ A2, isDig c = true) →
    A1 ++ '-' :: B1 = A2 ++ '-' :: B2 → A1 = A2 ∧ B1 = B2 := by
  intro A1
  induction A1 with
  | nil =>
    intro B1 A2 B2 _ hA2 h
    cases A2 with
    | nil =>
      simp only [List.nil_append] at h
      exact ⟨rfl, by injection h⟩
    | cons a A2 =>
      simp only [List.nil_append, List.cons_append] at h
      have h1 : '-' = a := by injection h
      have := hA2 a (by simp)
      rw [← h1] at this
      exact absurd this (by decide)
  | cons a A1 ih =>
    intro B1 A2 B2 hA1 hA2 h
    cases A2 with
    | nil =>
      simp only [List.cons_append, List.nil_append] at h
      have h1 : a = '-' := by injection h
      have := hA1 a (by simp)
      rw [h1] at this
      exact absurd this (by decide)
    | cons b A2 =>
      simp only [List.cons_append] at h
      have h1 : a = b := by injection h
      have h2 : A1 ++ '-' :: B1 = A2 ++ '-' :: B2 := by injection h
      obtain ⟨hA, hB⟩ := ih B1 A2 B2 (fun c hc => hA1 c (by simp [hc]))
        (fun c hc => hA2 c (by simp [hc])) h2
      exact ⟨by rw [h1, hA], hB⟩

theorem pad2c_dig {l : List Char} (h : ∀ c ∈ l, isDig c = true) :
    ∀ c ∈ pad2c l, isDig c = true := by
  unfold pad2c
  by_cases h2 : l.length < 2
  · rw [if_pos h2]
    intro c hc
    rcases List.mem_append.mp hc with hc | hc
    · rw [List.eq_of_mem_replicate hc]
      decide
    · exact h c hc
  · rw [if_neg h2]
    exact h

theorem monthKeyOf_inj {y1 m1 y2 m2 : Nat}
    (h : monthKeyOf y1 m1 = monthKeyOf y2 m2) : y1 = y2 ∧ m1 = m2 := by
  unfold monthKeyOf at h
  have hdata : toDecChars y1 ++ '-' :: pad2c (toDecChars m1) =
      toDecChars y2 ++ '-' :: pad2c (toDecChars m2) := by
    injection h
  obtain ⟨hy, hm⟩ := splitDash _ _ _ _ (toDecChars_all_dig y1) (toDecChars_all_dig y2) hdata
  exact ⟨toDecChars_inj hy, pad2c_toDecChars_inj hm⟩

theorem jsSum_append_one (l : List JsNum) (a : JsNum) :
    jsSum (l ++ [a]) = (jsSum l).add a := by
  simp [jsSum, List.foldl_append]

theorem monthTxns_append_one (ts : List CSVTransaction) (t : CSVTransaction) (y m : Nat) :
    monthTxns (ts ++ [t]) y m =
      monthTxns ts y m ++ if ymOfTxn t = (y, m) then [t] else [] := by
  unfold monthTxns
  rw [List.filter_append]
  congr 1
  by_cases h : ymOfTxn t = (y, m)
  · rw [if_pos h]
    simp [List.filter, h]
  · rw [if_neg h]
    simp [List.filter, h]

theorem incomeOf_append_one (ts : List CSVTransaction) (t : CSVTransaction) (y m : Nat) :
    incomeOf (ts ++ [t]) y m =
      if ymOfTxn t = (y, m) ∧ t.type = some "income"
      then (incomeOf ts y m).add t.amount else incomeOf ts y m := by
  unfold incomeOf
  rw [monthTxns_append_one]
  by_cases hym : ymOfTxn t = (y, m)
  · rw [if_pos hym]
    by_cases hty : t.type = some "income"
    · have hbt : (t.type == some "income") = true := beq_iff_eq.mpr hty
      rw [if_pos ⟨hym, hty⟩, List.filter_append, List.map_append]
      simp [List.filter, hbt, jsSum_append_one]
    · have hbf : (t.type == some "income") = false := beq_eq_false_iff_ne.mpr hty
      rw [if_neg (fun hc => hty hc.2), List.filter_append, List.map_append]
      simp [List.filter, hbf]
  · rw [if_neg hym, if_neg (fun hc => hym hc.1)]
    simp

theorem expenseOf_append_one (ts : List CSVTransaction) (t : CSVTransaction) (y m : Nat) :
    expenseOf (ts ++ [t]) y m =
      if ymOfTxn t = (y, m) ∧ ¬ t.type = some "income"
      then (expenseOf ts y m).add t.amount else expenseOf ts y m := by
  unfold expenseOf
  rw [monthTxns_append_one]
  by_cases hym : ymOfTxn t = (y, m)
  · rw [if_pos hym]
    by_cases hty : t.type = some "income"
    · have hbt : (t.type == some "income") = true := beq_iff_eq.mpr hty
      rw [if_neg (fun hc => hc.2 hty), List.filter_append, List.map_append]
      simp [List.filter, hbt]
    · have hbf : (t.type == some "income") = false := beq_eq_false_iff_ne.mpr hty
      rw [if_pos ⟨hym, hty⟩, List.filter_append, List.map_append]
      simp [List.filter, hbf, jsSum_append_one]
  · rw [if_neg hym, if_neg (fun hc => hym hc.1)]
    simp

theorem monthTxns_length_append_one (ts : List CSVTransaction) (t : CSVTransaction)
    (y m : Nat) :
    (monthTxns (ts ++ [t]) y m).length =
      (monthTxns ts y m).length + if ymOfTxn t = (y, m) then 1 else 0 := by
  rw [monthTxns_append_one, List.length_append]
  by_cases h : ymOfTxn t = (y, m) <;> simp [h]

theorem updateEntry_income (d : MonthlyData) (t : CSVTransaction)
    (hty : t.type = some "income") :
    (updateEntry d t).totalIncome = d.totalIncome.add t.amount ∧
      (updateEntry d t).totalExpenses = d.totalExpenses := by
  unfold updateEntry
  rw [if_pos hty, if_pos hty]
  exact ⟨rfl, rfl⟩

theorem updateEntry_expense (d : MonthlyData) (t : CSVTransaction)
    (hty : ¬ t.type = some "income") :
    (updateEntry d t).totalIncome = d.totalIncome ∧
      (updateEntry d t).totalExpenses = d.totalExpenses.add t.amount := by
  unfold updateEntry
  rw [if_neg hty, if_neg hty]
  exact ⟨rfl, rfl⟩

theorem updateEntry_count (d : MonthlyData) (t : CSVTransaction) :
    (updateEntry d t).transactionCount = d.transactionCount + 1 := rfl

theorem aggInv_step (P : List CSVTransaction) (acc : List MonthlyData)
    (t : CSVTransaction) (h : AggInv P acc) : AggInv (P ++ [t]) (addTxn acc t) := by
  obtain ⟨hkey, hnodup, hmem, hsums⟩ := h
  have heta : ymOfTxn t = ((ymOfTxn t).1, (ymOfTxn t).2) := rfl
  set Y := (ymOfTxn t).1 with hY
  set M := (ymOfTxn t).2 with hM
  set key := monthKeyOf Y M with hkeydef
  have hgoal : addTxn acc t =
      if acc.any (fun d => d.monthKey == key) then
        acc.map (fun d => if d.monthKey == key then updateEntry d t else d)
      else acc ++ [updateEntry ⟨Y, M, key, JsNum.num 0, JsNum.num 0, 0⟩ t] := rfl
  rw [hgoal]
  by_cases hany : acc.any (fun d => d.monthKey == key)
  · rw [if_pos hany]
    obtain ⟨d0, hd0mem, hd0beq⟩ := List.any_eq_true.mp hany
    have hd0key : d0.monthKey = key := beq_iff_eq.mp hd0beq
    have hd0pair : d0.year = Y ∧ d0.month = M := by
      have hk := hkey d0 hd0mem
      rw [hd0key, hkeydef] at hk
      exact (monthKeyOf_inj hk.symm)
    have hupd : ∀ d : MonthlyData,
        ((if d.monthKey == key then updateEntry d t else d).year = d.year ∧
         (if d.monthKey == key then updateEntry d t else d).month = d.month ∧
         (if d.monthKey == key then updateEntry d t else d).monthKey = d.monthKey) := by
      intro d
      by_cases hdk : d.monthKey == key
      · rw [if_pos hdk]
        exact ⟨rfl, rfl, rfl⟩
      · rw [if_neg hdk]
        exact ⟨rfl, rfl, rfl⟩
    refine ⟨?_, ?_, ?_, ?_⟩
    · intro d2 hd2
      obtain ⟨d, hd, rfl⟩ := List.mem_map.mp hd2
      obtain ⟨hy2, hm2, hk2⟩ := hupd d
      rw [hy2, hm2, hk2]
      exact hkey d hd
    · have hmk : (acc.map (fun d => if d.monthKey == key then updateEntry d t else d)).map
          (fun d => d.monthKey) = acc.map (fun d => d.monthKey) := by
        rw [List.map_map]
        refine List.map_congr_left ?_
        intro d _
        exact (hupd d).2.2
      rw [hmk]
      exact hnodup
    · intro y m
      have hpairs : (∃ d2 ∈ acc.map (fun d => if d.monthKey == key then updateEntry d t else d),
          d2.year = y ∧ d2.month = m) ↔ ∃ d ∈ acc, d.year = y ∧ d.month = m := by
        constructor
        · rintro ⟨d2, hd2, hy2, hm2⟩
          obtain ⟨d, hd, rfl⟩ := List.mem_map.mp hd2
          obtain ⟨hy3, hm3, _⟩ := hupd d
          exact ⟨d, hd, by rw [← hy3, hy2], by rw [← hm3, hm2]⟩
        · rintro ⟨d, hd, hy2, hm2⟩
          obtain ⟨hy3, hm3, _⟩ := hupd d
          exact ⟨_, List.mem_map_of_mem _ hd, by rw [hy3, hy2], by rw [hm3, hm2]⟩
      rw [hpairs]
      constructor
      · intro hex
        obtain ⟨t2, ht2, hym2⟩ := (hmem y m).mp hex
        exact ⟨t2, by simp [ht2], hym2⟩
      · rintro ⟨t2, ht2, hym2⟩
        rcases List.mem_append.mp ht2 with ht2 | ht2
        · exact (hmem y m).mpr ⟨t2, ht2, hym2⟩
        · rw [List.mem_singleton.mp ht2] at hym2
          rw [heta] at hym2
          exact ⟨d0, hd0mem, by rw [hd0pair.1]; exact congrArg Prod.fst hym2,
            by rw [hd0pair.2]; exact congrArg Prod.snd hym2⟩
    · intro d2 hd2
      obtain ⟨d, hd, rfl⟩ := List.mem_map.mp hd2
      obtain ⟨hsI, hsE, hsC⟩ := hsums d hd
      by_cases hdk : d.monthKey == key
      · have hdkey : d.monthKey = key := beq_iff_eq.mp hdk
        have hdpair : d.year = Y ∧ d.month = M := by
          have hk := hkey d hd
          rw [hdkey, hkeydef] at hk
          exact (monthKeyOf_inj hk.symm)
        rw [if_pos hdk]
        have hymd : ymOfTxn t = ((updateEntry d t).year, (updateEntry d t).month) := by
          show ymOfTxn t = (d.year, d.month)
          rw [heta, hdpair.1, hdpair.2]
        have hsI2 : incomeOf P (updateEntry d t).year (updateEntry d t).month =
            incomeOf P d.year d.month := rfl
        have hsE2 : expenseOf P (updateEntry d t).year (updateEntry d t).month =
            expenseOf P d.year d.month := rfl
        have hsC2 : monthTxns P (updateEntry d t).year (updateEntry d t).month =
            monthTxns P d.year d.month := rfl
        refine ⟨?_, ?_, ?_⟩
        · rw [incomeOf_append_one, hsI2]
          by_cases hty : t.type = some "income"
          · rw [if_pos ⟨hymd, hty⟩, (updateEntry_income d t hty).1, hsI]
          · rw [if_neg (fun hc => hty hc.2), (updateEntry_expense d t hty).1, hsI]
        · rw [expenseOf_append_one, hsE2]
          by_cases hty : t.type = some "income"
          · rw [if_neg (fun hc => hc.2 hty), (updateEntry_income d t hty).2, hsE]
          · rw [if_pos ⟨hymd, hty⟩, (updateEntry_expense d t hty).2, hsE]
        · rw [monthTxns_length_append_one, hsC2, if_pos hymd, updateEntry_count, hsC]
      · rw [if_neg hdk]
        have hdne : ¬ ymOfTxn t = (d.year, d.month) := by
          intro hc
          apply hdk
          rw [heta] at hc
          obtain ⟨h1, h2⟩ := Prod.ext_iff.mp hc
          have h1b : Y = d.year := h1
          have h2b : M = d.month := h2
          rw [beq_iff_eq, hkey d hd, hkeydef, ← h1b, ← h2b]
        refine ⟨?_, ?_, ?_⟩
        · rw [incomeOf_append_one, if_neg (fun hc => hdne hc.1), hsI]
        · rw [expenseOf_append_one, if_neg (fun hc => hdne hc.1), hsE]
        · rw [monthTxns_length_append_one, if_neg hdne, hsC]
          omega
  · rw [if_neg hany]
    have hnotk : ∀ d ∈ acc, ¬ d.monthKey = key := by
      intro d hd hc
      exact hany (List.any_eq_true.mpr ⟨d, hd, beq_iff_eq.mpr hc⟩)
    have hpairnot : ∀ d ∈ acc, ¬ (d.year = Y ∧ d.month = M) := by
      intro d hd hc
      apply hnotk d hd
      rw [hkey d hd, hkeydef, hc.1, hc.2]
    have hnoP : ¬ ∃ t2 ∈ P, ymOfTxn t2 = (Y, M) := by
      intro hc
      obtain ⟨d, hd, hdp⟩ := (hmem Y M).mpr hc
      exact hpairnot d hd ⟨hdp.1, hdp.2⟩
    have hempty : monthTxns P Y M = [] := by
      unfold monthTxns
      rw [List.filter_eq_nil_iff]
      intro t2 ht2 hc
      exact hnoP ⟨t2, ht2, of_decide_eq_true hc⟩
    refine ⟨?_, ?_, ?_, ?_⟩
    · intro d2 hd2
      rcases List.mem_append.mp hd2 with hd2 | hd2
      · exact hkey d2 hd2
      · rw [List.mem_singleton.mp hd2]
        show key = monthKeyOf Y M
        exact hkeydef
    · rw [List.map_append]
      simp only [List.map_cons, List.map_nil]
      rw [List.nodup_append]
      refine ⟨hnodup, by simp, ?_⟩
      intro k2 hk2
      obtain ⟨d, hd, rfl⟩ := List.mem_map.mp hk2
      simp only [List.mem_singleton]
      intro hc
      exact hnotk d hd hc
    · intro y m
      constructor
      · rintro ⟨d2, hd2, hy2, hm2⟩
        rcases List.mem_append.mp hd2 with hd2 | hd2
        · obtain ⟨t2, ht2, hym2⟩ := (hmem y m).mp ⟨d2, hd2, hy2, hm2⟩
          exact ⟨t2, by simp [ht2], hym2⟩
        · rw [List.mem_singleton.mp hd2] at hy2 hm2
          refine ⟨t, by simp, ?_⟩
          rw [heta]
          show (Y, M) = (y, m)
          rw [show Y = y from hy2, show M = m from hm2]
      · rintro ⟨t2, ht2, hym2⟩
        rcases List.mem_append.mp ht2 with ht2 | ht2
        · obtain ⟨d, hd, hdp⟩ := (hmem y m).mpr ⟨t2, ht2, hym2⟩
          exact ⟨d, by simp [hd], hdp⟩
        · rw [List.mem_singleton.mp ht2] at hym2
          rw [heta] at hym2
          refine ⟨updateEntry ⟨Y, M, key, JsNum.num 0, JsNum.num 0, 0⟩ t, by simp, ?_, ?_⟩
          · show Y = y
            exact congrArg Prod.fst hym2
          · show M = m
            exact congrArg Prod.snd hym2
    · intro d2 hd2
      rcases List.mem_append.mp hd2 with hd2 | hd2
      · obtain ⟨hsI, hsE, hsC⟩ := hsums d2 hd2
        have hdne : ¬ ymOfTxn t = (d2.year, d2.month) := by
          intro hc
          rw [heta] at hc
          exact hpairnot d2 hd2 ⟨(congrArg Prod.fst hc).symm, (congrArg Prod.snd hc).symm⟩
        refine ⟨?_, ?_, ?_⟩
        · rw [incomeOf_append_one, if_neg (fun hc => hdne hc.1), hsI]
        · rw [expenseOf_append_one, if_neg (fun hc => hdne hc.1), hsE]
        · rw [monthTxns_length_append_one, if_neg hdne, hsC]
          omega
      · rw [List.mem_singleton.mp hd2]
        have hymd : ymOfTxn t =
            ((updateEntry ⟨Y, M, key, JsNum.num 0, JsNum.num 0, 0⟩ t).year,
             (updateEntry ⟨Y, M, key, JsNum.num 0, JsNum.num 0, 0⟩ t).month) := heta
        have hI0 : incomeOf P (updateEntry ⟨Y, M, key, JsNum.num 0, JsNum.num 0, 0⟩ t).year
            (updateEntry ⟨Y, M, key, JsNum.num 0, JsNum.num 0, 0⟩ t).month = JsNum.num 0 := by
          show incomeOf P Y M = JsNum.num 0
          unfold incomeOf
          rw [hempty]
          rfl
        have hE0 : expenseOf P (updateEntry ⟨Y, M, key, JsNum.num 0, JsNum.num 0, 0⟩ t).year
            (updateEntry ⟨Y, M, key, JsNum.num 0, JsNum.num 0, 0⟩ t).month = JsNum.num 0 := by
          show expenseOf P Y M = JsNum.num 0
          unfold expenseOf
          rw [hempty]
          rfl
        have hC0 : monthTxns P (updateEntry ⟨Y, M, key, JsNum.num 0, JsNum.num 0, 0⟩ t).year
            (updateEntry ⟨Y, M, key, JsNum.num 0, JsNum.num 0, 0⟩ t).month = [] := hempty
        refine ⟨?_, ?_, ?_⟩
        · rw [incomeOf_append_one, hI0]
          by_cases hty : t.type = some "income"
          · rw [if_pos ⟨hymd, hty⟩, (updateEntry_income _ t hty).1]
          · rw [if_neg (fun hc => hty hc.2), (updateEntry_expense _ t hty).1]
        · rw [expenseOf_append_one, hE0]
          by_cases hty : t.type = some "income"
          · rw [if_neg (fun hc => hc.2 hty), (updateEntry_income _ t hty).2]
          · rw [if_pos ⟨hymd, hty⟩, (updateEntry_expense _ t hty).2]
        · rw [monthTxns_length_append_one, hC0, if_pos hymd, updateEntry_count]
          rfl

theorem aggInv_run : ∀ (ts P : List CSVTransaction) (acc : List MonthlyData),
    AggInv P acc → AggInv (P ++ ts) (ts.foldl addTxn acc) := by
  intro ts
  induction ts with
  | nil =>
    intro P acc h
    simpa using h
  | cons t ts ih =>
    intro P acc h
    have h3 := ih (P ++ [t]) (addTxn acc t) (aggInv_step P acc t h)
    rw [List.foldl_cons]
    rw [show P ++ t :: ts = (P ++ [t]) ++ ts by simp]
    exact h3

theorem aggInv_nil : AggInv [] [] := by
  refine ⟨by simp, by simp, ?_, by simp⟩
  intro y m
  simp

theorem aggInv_monthAgg (ts : List CSVTransaction) : AggInv ts (ts.foldl addTxn []) := by
  have h := aggInv_run ts [] [] aggInv_nil
  simpa using h

theorem aggregateByMonth_inv (ts : List CSVTransaction) :
    (∀ d ∈ aggregateByMonth ts, d.monthKey = monthKeyOf d.year d.month ∧
      d.totalIncome = incomeOf ts d.year d.month ∧
      d.totalExpenses = expenseOf ts d.year d.month ∧
      d.transactionCount = (monthTxns ts d.year d.month).length) ∧
    ((aggregateByMonth ts).map (fun d => d.monthKey)).Nodup ∧
    (∀ y m, (∃ d ∈ aggregateByMonth ts, d.year = y ∧ d.month = m) ↔
      ∃ t ∈ ts, ymOfTxn t = (y, m)) ∧
    List.Pairwise (fun a b => ymLt (mdYM a) (mdYM b)) (aggregateByMonth ts) := by
  obtain ⟨hkey, hnodup, hmem, hsums⟩ := aggInv_monthAgg ts
  have hperm : (aggregateByMonth ts).Perm (ts.foldl addTxn []) :=
    List.perm_insertionSort leYM _
  have hmemt : ∀ d : MonthlyData, d ∈ aggregateByMonth ts ↔ d ∈ ts.foldl addTxn [] :=
    fun d => hperm.mem_iff
  have hkeyL : ∀ d ∈ aggregateByMonth ts, d.monthKey = monthKeyOf d.year d.month :=
    fun d hd => hkey d ((hmemt d).mp hd)
  have hnodupL : ((aggregateByMonth ts).map (fun d => d.monthKey)).Nodup :=
    ((hperm.map (fun d => d.monthKey)).nodup_iff).mpr hnodup
  refine ⟨?_, hnodupL, ?_, ?_⟩
  · intro d hd
    have hd2 := (hmemt d).mp hd
    obtain ⟨hI, hE, hC⟩ := hsums d hd2
    exact ⟨hkey d hd2, hI, hE, hC⟩
  · intro y m
    rw [← hmem y m]
    constructor
    · rintro ⟨d, hd, hp⟩
      exact ⟨d, (hmemt d).mp hd, hp⟩
    · rintro ⟨d, hd, hp⟩
      exact ⟨d, (hmemt d).mpr hd, hp⟩
  · have hsorted : List.Pairwise leYM (aggregateByMonth ts) :=
      List.sorted_insertionSort leYM _
    have hne : List.Pairwise (fun a b : MonthlyData => ¬ a.monthKey = b.monthKey)
        (aggregateByMonth ts) := by
      have h2 := hnodupL
      rw [List.Nodup, List.pairwise_map] at h2
      exact h2
    refine (hsorted.and hne).imp_of_mem ?_
    intro a b ha hb hab
    obtain ⟨hle, hkne⟩ := hab
    rcases hle with hlt | ⟨hy, hm⟩
    · exact Or.inl hlt
    · right
      refine ⟨hy, ?_⟩
      have hmne : ¬ a.month = b.month := by
        intro hc
        exact hkne (by rw [hkeyL a ha, hkeyL b hb, hy, hc])
      show a.month < b.month
      have hmle : a.month ≤ b.month := hm
      omega

/-- C6: for well-formed dates, the aggregator output is strictly increasing
in (year, month), its month keys are pairwise distinct, and there is an
aggregate for (y, m) exactly when some input transaction has that month
(which, with the strict ordering, means exactly one aggregate per distinct
month present in the input). -/
theorem spec_c6 (ts : List CSVTransaction) (hwf : WFDates ts) :
    List.Pairwise (fun a b => ymLt (mdYM a) (mdYM b)) (aggregateByMonth ts) ∧
    ((aggregateByMonth ts).map (fun d => d.monthKey)).Nodup ∧
    (∀ y m, (∃ d ∈ aggregateByMonth ts, d.year = y ∧ d.month = m) ↔
      ∃ t ∈ ts, dateYM t.date = some (y, m)) := by
  obtain ⟨hfields, hnodup, hmem, hpw⟩ := aggregateByMonth_inv ts
  refine ⟨hpw, hnodup, ?_⟩
  intro y m
  rw [hmem y m]
  constructor
  · rintro ⟨t, ht, hym⟩
    obtain ⟨p, hp⟩ := Option.isSome_iff_exists.mp (hwf t ht)
    refine ⟨t, ht, ?_⟩
    rw [hp]
    unfold ymOfTxn at hym
    rw [hp] at hym
    rw [show p = (y, m) from hym]
  · rintro ⟨t, ht, hym⟩
    refine ⟨t, ht, ?_⟩
    unfold ymOfTxn
    rw [hym]
    rfl

/-- C6 witness: two single-transaction months arriving out of order. -/
theorem spec_c6_witness :
    List.Pairwise (fun a b => ymLt (mdYM a) (mdYM b)) (aggregateByMonth [txnMar, txnJan]) ∧
    ((aggregateByMonth [txnMar, txnJan]).map (fun d => d.monthKey)).Nodup ∧
    (∀ y m, (∃ d ∈ aggregateByMonth [txnMar, txnJan], d.year = y ∧ d.month = m) ↔
      ∃ t ∈ [txnMar, txnJan], dateYM t.date = some (y, m)) :=
  spec_c6 [txnMar, txnJan] (by unfold WFDates; decide)

/-- C7: for well-formed dates, every aggregate's `totalIncome` is exactly the
JavaScript sum of the amounts of that month's income transactions,
`totalExpenses` the sum over that month's other transactions, and
`transactionCount` the number of that month's transactions. -/
theorem spec_c7 (ts : List CSVTransaction) (hwf : WFDates ts) :
    ∀ d ∈ aggregateByMonth ts,
      d.totalIncome = jsSum (((ts.filter (fun t => dateYM t.date = some (d.year, d.month))).filter
        (fun t => t.type == some "income")).map (fun t => t.amount)) ∧
      d.totalExpenses = jsSum (((ts.filter (fun t => dateYM t.date = some (d.year, d.month))).filter
        (fun t => !(t.type == some "income"))).map (fun t => t.amount)) ∧
      d.transactionCount = (ts.filter (fun t => dateYM t.date = some (d.year, d.month))).length := by
  have hfilter : ∀ y m, ts.filter (fun t => dateYM t.date = some (y, m)) = monthTxns ts y m := by
    intro y m
    unfold monthTxns
    refine List.filter_congr ?_
    intro t ht
    obtain ⟨p, hp⟩ := Option.isSome_iff_exists.mp (hwf t ht)
    unfold ymOfTxn
    rw [hp]
    simp
  obtain ⟨hfields, _, _, _⟩ := aggregateByMonth_inv ts
  intro d hd
  obtain ⟨_, hI, hE, hC⟩ := hfields d hd
  rw [hfilter]
  exact ⟨hI, hE, hC⟩

/-- C7 witness: the single March transaction and its aggregate. -/
theorem spec_c7_witness :
    mdMarEntry.totalIncome = jsSum ((([txnMar].filter
      (fun t => dateYM t.date = some (mdMarEntry.year, mdMarEntry.month))).filter
      (fun t => t.type == some "income")).map (fun t => t.amount)) ∧
    mdMarEntry.totalExpenses = jsSum ((([txnMar].filter
      (fun t => dateYM t.date = some (mdMarEntry.year, mdMarEntry.month))).filter
      (fun t => !(t.type == some "income"))).map (fun t => t.amount)) ∧
    mdMarEntry.transactionCount = ([txnMar].filter
      (fun t => dateYM t.date = some (mdMarEntry.year, mdMarEntry.month))).length := by
  refine spec_c7 [txnMar] (by unfold WFDates; decide) mdMarEntry ?_
  have hymt : ymOfTxn txnMar = (2024, 3) := by decide
  have hty : ¬ txnMar.type = some "income" := by decide
  unfold aggregateByMonth
  have hfold : [txnMar].foldl addTxn [] = [mdMarEntry] := by
    simp only [List.foldl_cons, List.foldl_nil]
    show addTxn [] txnMar = [mdMarEntry]
    have hamt : txnMar.amount = JsNum.num 0 := rfl
    simp [addTxn, hymt, updateEntry, hty, js_zero_add, mdMarEntry, hamt]
  rw [hfold]
  simp [List.insertionSort, List.orderedInsert]
